import Mathlib

/-!
Verification of the retrieval-and-composition core of the local-RAG repository.

The development shallowly embeds the Python source:

* `rag_engine.py` — text chunking (`RAGEngine.text_splitter`), the fallback
  bag-of-terms embedding (`RAGEngine._simple_embedding`), the fallback cosine
  similarity (`RAGEngine._simple_cosine_similarity`), retrieval
  (`RAGEngine.retrieve_relevant_chunks`) and response generation
  (`RAGEngine.generate_response` / `_generate_simple_response`);
* `embeddings/embeddings.py` — the numpy similarity ranking
  (`EmbeddingGenerator.similarity_search`), chunk search
  (`EmbeddingService.search_similar_chunks`) and embedding persistence
  (`EmbeddingService.create_embeddings_for_document` together with the
  `unique_together ['chunk', 'embedding_model']` constraint of
  `embeddings/models.py`);
* `rag/pipelines.py` — query orchestration (`RAGPipeline.process_query`,
  `_generate_response`, `_format_sources`, `update_config`) and session lookup
  (`RAGService.get_session_by_id`).

Modelling conventions:

* Python `str` values that the claims reason about character-by-character
  (chunker input/output, engine texts) are modelled as `List Char`; strings that
  are only ever compared or concatenated (titles, ids, response templates of the
  Django pipeline) are Lean `String`s.
* Python floats are modelled as exact rationals `ℚ` wherever the source only
  adds, multiplies, divides and compares them.  The two cosine-similarity
  functions take a square root, so their values live in `ℝ`; every claim-level
  hypothesis stays on the decidable `ℚ` side.
* `numpy.argsort` (default kind) is a deterministic ascending sort; on the
  small arrays of this code path it is numpy's insertion sort, which is stable,
  so it is modelled as a stable ascending sort.  Python's `list.sort` is Timsort
  and always stable.
* External capabilities (the sentence-transformer encoder, the database rows)
  enter as parameters: embedding vectors, similarity values and stored rows are
  arguments of the modelled functions, exactly as the spec isolates them
  ("text → vector" is a consumed capability).
-/

namespace LocalRAG

/-! ## Basic character-list machinery (Python `str` operations) -/

/-- Python's `str.strip()`: drop whitespace from both ends.  Texts are modelled
as `List Char`. -/
def trim (l : List Char) : List Char :=
  ((l.dropWhile Char.isWhitespace).reverse.dropWhile Char.isWhitespace).reverse

/-- The separator `". "` used by `text.split(". ")` and `". ".join(...)`. -/
def dotSpace : List Char := ['.', ' ']

/-- Python's `text.split(". ")`: split on the two-character separator,
scanning left to right, keeping empty pieces (so `"".split(". ") == [""]`). -/
def splitSentences : List Char → List (List Char)
  | [] => [[]]
  | '.' :: ' ' :: rest => [] :: splitSentences rest
  | c :: rest =>
    match splitSentences rest with
    | [] => [[c]]
    | h :: t => (c :: h) :: t

/-- Maximal runs of characters satisfying `keep`, as produced by Python's
`str.split()` (with `keep = not whitespace`) and `re.findall(r'\b\w+\b', ...)`
(with `keep = word character`). -/
def wordsByAux (keep : Char → Bool) (cur : List Char) : List Char → List (List Char)
  | [] => if cur = [] then [] else [cur.reverse]
  | c :: rest =>
    if keep c then wordsByAux keep (c :: cur) rest
    else if cur = [] then wordsByAux keep [] rest
    else cur.reverse :: wordsByAux keep [] rest

/-- See `wordsByAux`. -/
def wordsBy (keep : Char → Bool) (l : List Char) : List (List Char) :=
  wordsByAux keep [] l

/-- `str.lower()`. -/
def lowercase (l : List Char) : List Char := l.map Char.toLower

/-- A `\w` character of Python's `re` module (ASCII range): letter, digit or
underscore. -/
def isWordChar (c : Char) : Bool := c.isAlphanum || c = '_'

/-- Python's negative slice `l[-n:]` for `n ≥ 1`: the last `min n (length l)`
elements. -/
def lastN {α : Type} (n : ℕ) (l : List α) : List α := l.drop (l.length - n)

/-- Render a natural number, as Python's `str(...)` does. -/
def natChars (n : ℕ) : List Char := (toString n).data

/-! ## Chunker: `RAGEngine.text_splitter` (rag_engine.py lines 252-308) -/

/-- One element of the `pages_and_texts` list consumed by `text_splitter`
(only the two keys the splitter reads). -/
structure PageText where
  page_number : ℕ
  text : List Char
  deriving DecidableEq

/-- One chunk dict produced by `text_splitter`.  `token_count` is the source's
`len(current_chunk) / 4`. -/
structure Chunk where
  chunk_id : ℕ
  page_number : ℕ
  text : List Char
  char_count : ℕ
  word_count : ℕ
  token_count : ℚ
  deriving DecidableEq

instance : Inhabited Chunk := ⟨⟨0, 0, [], 0, 0, 0⟩⟩

/-- The loop state of `text_splitter`: the running buffer `current_chunk`, the
sentence list `current_chunk_sentences`, the accumulated `chunks` and the next
`chunk_id`. -/
structure SplitState where
  cur : List Char
  sents : List (List Char)
  chunks : List Chunk
  nextId : ℕ
  deriving DecidableEq

/-- Append the current buffer as a chunk (the dict built at rag_engine.py
lines 281-288 / 298-305): text is `current_chunk.strip()`, `char_count` the
unstripped length, `word_count` counts `current_chunk.split()`. -/
def emitChunk (pageNo : ℕ) (st : SplitState) : SplitState :=
  { st with
    chunks := st.chunks ++
      [⟨st.nextId, pageNo, trim st.cur, st.cur.length,
        (wordsBy (fun c => !c.isWhitespace) st.cur).length, (st.cur.length : ℚ) / 4⟩],
    nextId := st.nextId + 1 }

/-- The body of the sentence loop of `text_splitter` (lines 269-294).  The
overlap slice `current_chunk_sentences[-chunk_overlap//50:]` keeps the last
`⌈chunk_overlap/50⌉` sentences (Python's `-chunk_overlap//50` floor-divides the
negated overlap). -/
def processSentence (csize cov pageNo : ℕ) (st : SplitState) (s0 : List Char) : SplitState :=
  let s := trim s0
  if s = [] then st
  else if (st.cur ++ s).length < csize then
    { st with cur := st.cur ++ s ++ dotSpace, sents := st.sents ++ [s] }
  else
    let st1 := if trim st.cur ≠ [] then emitChunk pageNo st else st
    let ov := if 0 < cov then lastN ((cov + 49) / 50) st1.sents else []
    { st1 with
      cur := List.intercalate dotSpace ov ++ dotSpace ++ s ++ dotSpace,
      sents := ov ++ [s] }

/-- The body of the page loop of `text_splitter` (lines 259-306): the buffer
and sentence list restart empty for every page; chunks and ids are threaded
through. -/
def processPage (csize cov : ℕ) (acc : List Chunk × ℕ) (p : PageText) : List Chunk × ℕ :=
  let st0 : SplitState := ⟨[], [], acc.1, acc.2⟩
  let st1 := (splitSentences p.text).foldl (processSentence csize cov p.page_number) st0
  let st2 := if trim st1.cur ≠ [] then emitChunk p.page_number st1 else st1
  (st2.chunks, st2.nextId)

/-- `RAGEngine.text_splitter(pages_and_texts, chunk_size, chunk_overlap)`. -/
def textSplitter (csize cov : ℕ) (pages : List PageText) : List Chunk :=
  (pages.foldl (processPage csize cov) ([], 0)).1

/-- The chunks a single page contributes, numbered from 0 (used to state that
chunking is page-local). -/
def pageChunksRaw (csize cov : ℕ) (p : PageText) : List Chunk :=
  (processPage csize cov ([], 0) p).1

/-- Renumber `chunk_id` to the position in the list. -/
def withIds (cs : List Chunk) : List Chunk :=
  cs.enum.map (fun p => { p.2 with chunk_id := p.1 })

/-- Shift every `chunk_id` by `n`. -/
def shiftIds (n : ℕ) (cs : List Chunk) : List Chunk :=
  cs.map (fun c => { c with chunk_id := c.chunk_id + n })

/-! ## Stable sorting (Python `list.sort` is stable; `numpy.argsort` is modelled
as a stable ascending sort, see the header) -/

/-- Insert `x` into a descending-sorted list, before the first element whose
key is `≤ key x`; with `foldr`, this reproduces a stable descending sort. -/
def insertDescS {α κ : Type} [LinearOrder κ] (key : α → κ) (x : α) : List α → List α
  | [] => [x]
  | y :: ys => if key y ≤ key x then x :: y :: ys else y :: insertDescS key x ys

/-- Stable sort, descending by `key` (model of `list.sort(key=..., reverse=True)`). -/
def stableSortDesc {α κ : Type} [LinearOrder κ] (key : α → κ) (l : List α) : List α :=
  l.foldr (insertDescS key) []

/-- Insert `x` into an ascending-sorted list, before the first element whose
key is `≥ key x`; with `foldr`, this reproduces a stable ascending sort. -/
def insertAscS {α κ : Type} [LinearOrder κ] (key : α → κ) (x : α) : List α → List α
  | [] => [x]
  | y :: ys => if key x ≤ key y then x :: y :: ys else y :: insertAscS key x ys

/-- Stable sort, ascending by `key` (model of `numpy.argsort`'s deterministic
ascending sort; numpy's default sort is its stable insertion sort on the short
arrays this code ranks). -/
def stableSortAsc {α κ : Type} [LinearOrder κ] (key : α → κ) (l : List α) : List α :=
  l.foldr (insertAscS key) []

/-! ## Vector arithmetic shared by both similarity functions -/

/-- `sum(a * b for a, b in zip(vec1, vec2))`. -/
def dotQ (v w : List ℚ) : ℚ :=
  (v.zip w).foldl (fun acc p => acc + p.1 * p.2) 0

/-- `sum(a * a for a in vec)` — the squared Euclidean norm. -/
def sumSq (v : List ℚ) : ℚ := dotQ v v

/-! ## Fallback cosine similarity: `RAGEngine._simple_cosine_similarity`
(rag_engine.py lines 373-389) -/

/-- `_simple_cosine_similarity(vec1, vec2)`: both vectors are truncated to the
shorter length; if either magnitude is zero the result is 0, else
`dot / (magnitude1 * magnitude2)`.  `math.sqrt(x) == 0` exactly when the
(non-negative) radicand `x` is zero, so the source's zero test on the
magnitudes is stated on the radicands, keeping the guard decidable. -/
noncomputable def simpleCosineSim (vec1 vec2 : List ℚ) : ℝ :=
  let minLen := min vec1.length vec2.length
  let v1 := vec1.take minLen
  let v2 := vec2.take minLen
  if sumSq v1 = 0 ∨ sumSq v2 = 0 then 0
  else (dotQ v1 v2 : ℝ) / (Real.sqrt (sumSq v1) * Real.sqrt (sumSq v2))

/-! ## numpy cosine similarity: `EmbeddingGenerator.similarity_search`
(embeddings/embeddings.py lines 57-82) -/

/-- The per-vector value of `np.dot(doc_vecs, query_vec) /
(np.linalg.norm(doc_vecs, axis=1) * np.linalg.norm(query_vec))`.  There is no
zero-norm guard in the source: a zero denominator makes IEEE division return
NaN (or ±Inf), and a shape mismatch raises — both modelled as `none`. -/
noncomputable def npCosineSim (d q : List ℚ) : Option ℝ :=
  if d.length ≠ q.length then none
  else if sumSq d = 0 ∨ sumSq q = 0 then none
  else some ((dotQ d q : ℝ) / (Real.sqrt (sumSq d) * Real.sqrt (sumSq q)))

/-- One entry of the result list of `similarity_search`: the dict
`{'index': idx, 'similarity': similarities[idx], 'rank': i + 1}`. -/
structure SimResult where
  index : ℕ
  similarity : ℚ
  rank : ℕ
  deriving DecidableEq

/-- `np.argsort(similarities)` over the given (float, here exact) similarity
values: the indices that sort the values ascending, stably. -/
def npArgsort (sims : List ℚ) : List ℕ :=
  (stableSortAsc (fun p => p.2) sims.enum).map (fun p => p.1)

/-- The ranking step of `similarity_search` (lines 68-79), applied to the
already-computed similarity array: `top_indices =
np.argsort(similarities)[::-1][:top_k]`, then each index is paired with its
similarity and 1-based rank. -/
def similaritySearch (sims : List ℚ) (topk : ℕ) : List SimResult :=
  let top_indices := ((npArgsort sims).reverse).take topk
  top_indices.enum.map (fun p => ⟨p.2, sims.getD p.2 0, p.1 + 1⟩)

/-! ## Chunk search: `EmbeddingService.search_similar_chunks`
(embeddings/embeddings.py lines 133-177) -/

/-- The fields of a stored `DocumentEmbedding` row that `search_similar_chunks`
copies into its result (document id/title, chunk id/index/content).  The
embedding vectors themselves only enter through the similarity values. -/
structure ChunkRow where
  document_id : String
  document_title : String
  chunk_id : String
  chunk_index : ℕ
  content : String
  deriving DecidableEq

instance : Inhabited ChunkRow := ⟨⟨"", "", "", 0, ""⟩⟩

/-- One formatted result of `search_similar_chunks`. -/
structure ScoredChunk where
  document_id : String
  document_title : String
  chunk_id : String
  chunk_index : ℕ
  content : String
  similarity_score : ℚ
  rank : ℕ
  deriving DecidableEq

/-- `search_similar_chunks(query, document_ids, top_k)`: empty row set returns
`[]`; otherwise the ranking of `similarity_search` is mapped back over the
rows.  `rows` are the `DocumentEmbedding` objects in scope and `sims` their
similarity values against the query embedding (the numpy computation above),
one per row. -/
def searchSimilarChunks (rows : List ChunkRow) (sims : List ℚ) (topk : ℕ) :
    List ScoredChunk :=
  if rows = [] then []
  else
    (similaritySearch sims topk).map (fun r =>
      let row := rows.getD r.index default
      ⟨row.document_id, row.document_title, row.chunk_id, row.chunk_index,
        row.content, r.similarity, r.rank⟩)

/-! ## Embedding persistence: `EmbeddingService.create_embeddings_for_document`
(embeddings/embeddings.py lines 88-131) and the `unique_together
['chunk', 'embedding_model']` constraint (embeddings/models.py line 32) -/

/-- The key of a stored vector: (chunk identity, embedding-model name). -/
abbrev EmbKey := ℕ × String

/-- `DocumentEmbedding.objects.get_or_create(..., defaults={'embedding_vector':
v})`: if a row with this key exists the store is unchanged (the defaults are
NOT applied); otherwise a new row is inserted. -/
def getOrCreate (store : List (EmbKey × List ℚ)) (key : EmbKey) (vec : List ℚ) :
    List (EmbKey × List ℚ) :=
  if store.any (fun e => e.1 = key) then store else store ++ [(key, vec)]

/-- `create_embeddings_for_document`: for every chunk of the document, in
`chunk_index` order, embed its content and `get_or_create` the row.  The
source batches the encoder calls in groups of 100 and zips batches back with
their chunks, which visits every (chunk, embedding) pair once in order — the
fold below.  `embedOf` is the external encoder capability. -/
def createEmbeddingsForDocument (store : List (EmbKey × List ℚ))
    (chunks : List (ℕ × String)) (modelName : String) (embedOf : String → List ℚ) :
    List (EmbKey × List ℚ) :=
  chunks.foldl (fun st ch => getOrCreate st (ch.1, modelName) (embedOf ch.2)) store

/-! ## Fallback embedding: `RAGEngine._simple_embedding`
(rag_engine.py lines 339-371) -/

/-- The fixed vocabulary of `_simple_embedding`. -/
def vocab : List String :=
  [ "the", "and", "or", "but", "in", "on", "at", "to", "for", "of", "with", "by",
    "what", "how", "why", "when", "where", "who", "which", "can", "could", "should",
    "information", "data", "text", "document", "content", "page", "chapter", "section",
    "important", "main", "key", "primary", "secondary", "first", "second", "third",
    "analysis", "study", "research", "result", "conclusion", "summary", "overview" ]

/-- The vocabulary as character lists. -/
def vocabL : List (List Char) := vocab.map (fun s => s.data)

/-- The words of a text as seen by `_simple_embedding`:
`re.findall(r'\b\w+\b', text.lower())`. -/
def embWords (text : List Char) : List (List Char) :=
  wordsBy isWordChar (lowercase text)

/-- The un-normalized count vector of `_simple_embedding`: one count per
vocabulary word, then the counts of up to 20 distinct non-vocabulary words of
the text.  `list(set(words))` iterates in an unspecified hash order in Python;
it is modelled by `List.dedup` (one definite duplicate-free enumeration) — no
settled claim depends on which distinct words are chosen. -/
def simpleEmbeddingRaw (text : List Char) : List ℚ :=
  let words := embWords text
  let base := vocabL.map (fun v => (words.count v : ℚ))
  let uniq := words.dedup.take 20
  base ++ (uniq.filter (fun w => w ∉ vocabL)).map (fun w => (words.count w : ℚ))

/-- The additive smoothing constant `1e-10` of the normalization step. -/
def epsTiny : ℚ := 1 / 10 ^ 10

/-- `_simple_embedding(text)`: the count vector divided by
`sum(embedding) + 1e-10`. -/
def simpleEmbedding (text : List Char) : List ℚ :=
  let e := simpleEmbeddingRaw text
  let total := e.sum + epsTiny
  e.map (fun x => x / total)

/-- The spec's own normalization ("L1-normalized"): divide by the exact L1
mass.  Stated from the spec's words, to compare with the source's
`simpleEmbedding` above. -/
def l1Normalize (v : List ℚ) : List ℚ := v.map (fun x => x / v.sum)

/-! ## Engine retrieval: `RAGEngine.retrieve_relevant_chunks`
(rag_engine.py lines 436-488) -/

/-- `retrieve_relevant_chunks` in the "simple" mode: `stored` is the pickled
`(chunks, embeddings)` data of the document — `none` when
`os.path.exists(embedding_path)` is false, in which case the function silently
returns `[]`.  `sims` are the `_simple_cosine_similarity` values of the stored
embeddings against the query embedding, one per chunk (real-valued in the
source; the ranking below is settled for arbitrary score lists).  The indexed
similarities are sorted descending by Python's stable `list.sort` and the top
`top_k` chunks are returned, each paired with its similarity. -/
def retrieveRelevantChunksE (stored : Option (List Chunk × List ℚ)) (topk : ℕ) :
    List (Chunk × ℚ) :=
  match stored with
  | none => []
  | some (chunks, sims) =>
    let indexed := sims.enum
    let sorted := stableSortDesc (fun p => p.2) indexed
    let top_indices := (sorted.take topk).map (fun p => p.1)
    top_indices.map (fun i => (chunks.getD i default, sims.getD i 0))

/-! ## Engine response generation: `RAGEngine.generate_response` and
`RAGEngine._generate_simple_response` (rag_engine.py lines 490-587) -/

/-- The result dict of the engine's response functions: `{"success": True,
"response": ..., "sources": ...}` or `{"success": False, "error": ...}`. -/
inductive EngineResult where
  | ok (response : List Char) (sources : List (ℕ × List Char × ℚ))
  | err (msg : String)
  deriving DecidableEq

/-- `True` for a success dict — the spec's "normal (non-error) outcome". -/
def EngineResult.isNormal : EngineResult → Bool
  | .ok _ _ => true
  | .err _ => false

/-- The source entries of `_generate_simple_response` (lines 570-577):
page number, preview of at most 200 characters (ellipsis if truncated),
similarity. -/
def formatSourcesE (relevant : List (Chunk × ℚ)) : List (ℕ × List Char × ℚ) :=
  relevant.map (fun r =>
    (r.1.page_number,
     if r.1.text.length > 200 then r.1.text.take 200 ++ ( "...").data else r.1.text,
     r.2))

/-- Append a final `'.'` unless the text already ends with one. -/
def ensureDot (l : List Char) : List Char :=
  if l.getLast? = some '.' then l else l ++ ['.']

/-- `_generate_simple_response(query, relevant_chunks)` (lines 513-587):
sentences of the retrieved chunks are scored by the number of distinct
query words they share with the query, the top 3 join into the answer, a
passage excerpt of the best chunk and page references are appended. -/
def generateSimpleResponseE (query : List Char) (relevant : List (Chunk × ℚ)) :
    EngineResult :=
  let query_words := (wordsBy (fun c => !c.isWhitespace) (lowercase query)).dedup
  let all_sentences := relevant.flatMap (fun r =>
    (splitSentences r.1.text).filterMap (fun s0 =>
      let s := trim s0
      if s.length > 20 then
        let sentence_words := (wordsBy (fun c => !c.isWhitespace) (lowercase s)).dedup
        let ov := sentence_words.countP (fun w => w ∈ query_words)
        if ov > 0 then some (s, ov, r.1.page_number) else none
      else none))
  let sorted := stableSortDesc (fun t => t.2.1) all_sentences
  let mrc := relevant.headD (default, 0)
  let response :=
    if sorted ≠ [] then
      let top := sorted.take 3
      let body := ensureDot (List.intercalate dotSpace (top.map (fun t => t.1)))
      let page_refs := (top.map (fun t => natChars t.2.2)).dedup
      let passage :=
        if mrc.1.text.length > 500 then mrc.1.text.take 500 ++ ( "...").data
        else mrc.1.text.take 500
      let r1 := body ++ ( "\n\n**📖 Relevant Passage (Page ").data ++
        natChars mrc.1.page_number ++ ( "):**\n> ").data ++ passage
      if page_refs ≠ [] then
        r1 ++ ( "\n\n📄 Sources: Page ").data ++
          List.intercalate (( ", ").data) (stableSortAsc (fun w => w) page_refs)
      else r1
    else
      ensureDot (( "Based on the document content: ").data ++ mrc.1.text.take 300 ++
          ( "...").data) ++
        ( "\n\n**📖 Relevant Passage (Page ").data ++ natChars mrc.1.page_number ++
        ( "):**\n> ").data ++ mrc.1.text
  .ok response (formatSourcesE relevant)

/-- `generate_response(query, document_id)` in the "simple" mode (lines
490-511): models-not-loaded is an error; retrieval of the document's stored
data (missing file ⇒ `none` ⇒ empty retrieval) with the default `top_k = 5`;
an empty retrieval returns the failure dict `{"success": False, "error": "No
relevant information found"}`; otherwise the simple composer runs. -/
def generateResponseE (models_loaded : Bool) (stored : Option (List Chunk × List ℚ))
    (query : List Char) : EngineResult :=
  if models_loaded = false then .err ( "Models not loaded")
  else
    let relevant := retrieveRelevantChunksE stored 5
    if relevant = [] then .err ( "No relevant information found")
    else generateSimpleResponseE query relevant

/-! ## Django pipeline: `RAGPipeline` (rag/pipelines.py) -/

/-- The configuration fields `process_query` reads (`rag/models.py
RAGConfiguration` has seven tunables; the query path uses these three). -/
structure RAGConfigV where
  top_k : ℕ
  similarity_threshold : ℚ
  model_name : String
  deriving DecidableEq

/-- The fixed answer of `_generate_response` for an empty chunk list
(pipelines.py line 112). -/
def noInfoResponse : String :=
  "I couldn\x27t find relevant information in the provided documents to answer your question."

/-- Two-decimal rendering of a similarity score (the `:.2f` format of the
context block; the exact float rounding mode is immaterial to the claims). -/
def fmt2 (x : ℚ) : String :=
  let c : ℕ := (round (x * 100)).natAbs
  (if x < 0 then "-" else "") ++ toString (c / 100) ++ "." ++
    (if c % 100 < 10 then "0" else "") ++ toString (c % 100)

/-- `RAGPipeline._generate_response(query, context_chunks)` (lines 108-131):
empty context returns the fixed no-information answer; otherwise a context
block over the top 5 chunks is assembled into the templated answer. -/
def generateResponseP (query : String) (context_chunks : List ScoredChunk) : String :=
  if context_chunks = [] then noInfoResponse
  else
    let context := String.intercalate ( "\n\n")
      ((context_chunks.take 5).map (fun c =>
        "From " ++ c.document_title ++ " (similarity: " ++ fmt2 c.similarity_score ++
          "):\n" ++ c.content.take 500 ++ "..."))
    "Based on the provided documents, here\x27s what I found regarding your question: \"" ++
      query ++ "\"\n\n" ++ context ++
      "\n\nThis information is compiled from " ++ toString context_chunks.length ++
      " relevant sections across your documents."

/-- One entry of `RAGPipeline._format_sources` (lines 133-146). -/
structure SourceEntry where
  document_id : String
  document_title : String
  chunk_id : String
  chunk_index : ℕ
  similarity_score : ℚ
  rank : ℕ
  preview : String
  deriving DecidableEq

/-- `_format_sources` for a single chunk: all identifying fields plus a
preview of at most 200 characters (ellipsis-suffixed if truncated). -/
def formatSource (c : ScoredChunk) : SourceEntry :=
  ⟨c.document_id, c.document_title, c.chunk_id, c.chunk_index, c.similarity_score,
    c.rank, if c.content.length > 200 then c.content.take 200 ++ "..." else c.content⟩

/-- `RAGPipeline._format_sources(chunks)`. -/
def formatSources (chunks : List ScoredChunk) : List SourceEntry :=
  chunks.map formatSource

/-- The `metadata['config']` snapshot persisted with every query
(pipelines.py lines 92-96). -/
structure ConfigSnapshot where
  top_k : ℕ
  similarity_threshold : ℚ
  model_name : String
  deriving DecidableEq

/-- The `metadata` dict of a persisted `RAGQuery` (lines 89-97). -/
structure QueryMetadata where
  chunks_found : ℕ
  chunks_used : ℕ
  config : ConfigSnapshot
  deriving DecidableEq

/-- The persisted `RAGQuery` record (lines 84-99).  `processing_time` is
wall-clock time and is not modelled. -/
structure RAGQueryRec where
  query_text : String
  response_text : String
  sources : List SourceEntry
  metadata : QueryMetadata
  deriving DecidableEq

/-- `RAGPipeline.process_query(session, query_text)` (lines 57-106): search the
session's rows for the `top_k` most similar chunks, keep those with
`similarity_score >= similarity_threshold`, compose the response from the kept
chunks and persist one record with both counts and the configuration
snapshot. -/
def processQuery (cfg : RAGConfigV) (rows : List ChunkRow) (sims : List ℚ)
    (query_text : String) : RAGQueryRec :=
  let similar_chunks := searchSimilarChunks rows sims cfg.top_k
  let filtered_chunks := similar_chunks.filter
    (fun c => cfg.similarity_threshold ≤ c.similarity_score)
  { query_text := query_text
    response_text := generateResponseP query_text filtered_chunks
    sources := formatSources filtered_chunks
    metadata :=
      ⟨similar_chunks.length, filtered_chunks.length,
        ⟨cfg.top_k, cfg.similarity_threshold, cfg.model_name⟩⟩ }

/-- `RAGService.get_session_by_id(session_id, user)` (lines 173-179): the
session with that id among the user's sessions, `None` when it does not exist
(`RAGSession.DoesNotExist` is caught and reported as `None`). -/
def getSessionById {σ : Type} (sessions : List (String × σ)) (session_id : String) :
    Option σ :=
  (sessions.find? (fun s => s.1 = session_id)).map (fun s => s.2)

/-! ## Configuration update: `RAGPipeline.update_config` (lines 152-165) -/

/-- A Python attribute value handed to `setattr` (`setattr` stores whatever
value it is given, so all attributes share one value type). -/
inductive CfgVal where
  | s (v : String)
  | n (v : ℤ)
  | q (v : ℚ)
  deriving DecidableEq

/-- The attribute store of a `RAGConfiguration` instance as the
`hasattr`/`setattr` loop of `update_config` sees it: the seven tunable
database fields (`rag/models.py` lines 39-45) together with the further
attributes every instance of the model exposes — the owner foreign key
`user`, the auto primary key `id`, the timestamps `created_at`/`updated_at`,
and the inherited `Model.save` method, which an instance-level `setattr`
shadows (`none` = still the bound method, `some v` = shadowed by the plain
value `v`).  A real instance exposes still more names (other methods, `pk`,
`user_id`, private attributes); `hasattr` matches those too and `setattr`
overwrites them just like `save`, so the modelled attribute set is the
representative sample the claims need, and names outside it stand for names
that are no attribute at all (arbitrary typo keys).  Django's `auto_now`
additionally rewrites `updated_at` on every save; no statement below
quantifies over it. -/
structure RAGConfiguration where
  model_name : CfgVal
  chunk_size : CfgVal
  chunk_overlap : CfgVal
  max_tokens : CfgVal
  temperature : CfgVal
  top_k : CfgVal
  similarity_threshold : CfgVal
  user : CfgVal
  id : CfgVal
  created_at : CfgVal
  updated_at : CfgVal
  save : Option CfgVal
  deriving DecidableEq

/-- The defaults of `RAGPipeline._get_user_config` (pipelines.py lines 21-32):
temperature `0.7` and similarity threshold `0.5`, written as explicit
fractions; owner, primary key and timestamps are Django-assigned (sample
values here), and `save` is the unshadowed inherited method. -/
def defaultConfiguration : RAGConfiguration :=
  ⟨.s ( "all-MiniLM-L6-v2"), .n 1000, .n 200, .n 2048, .q (mkRat 7 10), .n 10,
    .q (mkRat 1 2), .n 1, .n 1, .s ( "2024-01-01"), .s ( "2024-01-01"), none⟩

/-- The attribute names of the seven tunable database fields. -/
def configFieldNames : List String :=
  [ "model_name", "chunk_size", "chunk_overlap", "max_tokens", "temperature",
    "top_k", "similarity_threshold" ]

/-- The modelled attribute names that `hasattr(self.config, ...)` matches:
the seven tunables plus the non-field instance attributes (see
`RAGConfiguration`). -/
def configAttrNames : List String :=
  [ "model_name", "chunk_size", "chunk_overlap", "max_tokens", "temperature",
    "top_k", "similarity_threshold", "user", "id", "created_at", "updated_at",
    "save" ]

/-- `if hasattr(self.config, key): setattr(self.config, key, value)`: any
attribute name updates that attribute (assigning to `save` shadows the
method); a name that is no attribute leaves the instance unchanged. -/
def setAttr (c : RAGConfiguration) (key : String) (v : CfgVal) : RAGConfiguration :=
  if key = "model_name" then { c with model_name := v }
  else if key = "chunk_size" then { c with chunk_size := v }
  else if key = "chunk_overlap" then { c with chunk_overlap := v }
  else if key = "max_tokens" then { c with max_tokens := v }
  else if key = "temperature" then { c with temperature := v }
  else if key = "top_k" then { c with top_k := v }
  else if key = "similarity_threshold" then { c with similarity_threshold := v }
  else if key = "user" then { c with user := v }
  else if key = "id" then { c with id := v }
  else if key = "created_at" then { c with created_at := v }
  else if key = "updated_at" then { c with updated_at := v }
  else if key = "save" then { c with save := some v }
  else c

/-- Read a data attribute by name (`none` for names that are no data
attribute). -/
def getAttr (c : RAGConfiguration) (key : String) : Option CfgVal :=
  if key = "model_name" then some c.model_name
  else if key = "chunk_size" then some c.chunk_size
  else if key = "chunk_overlap" then some c.chunk_overlap
  else if key = "max_tokens" then some c.max_tokens
  else if key = "temperature" then some c.temperature
  else if key = "top_k" then some c.top_k
  else if key = "similarity_threshold" then some c.similarity_threshold
  else if key = "user" then some c.user
  else if key = "id" then some c.id
  else if key = "created_at" then some c.created_at
  else if key = "updated_at" then some c.updated_at
  else none

/-- The `hasattr`/`setattr` loop of `update_config` (pipelines.py lines
155-157). -/
def applyKwargs (c : RAGConfiguration) (kwargs : List (String × CfgVal)) :
    RAGConfiguration :=
  kwargs.foldl (fun c kv => setAttr c kv.1 kv.2) c

/-- `RAGPipeline.update_config(**kwargs)` (pipelines.py lines 152-165): the
`hasattr`/`setattr` loop, then `self.config.save()`.  If an argument named
`save` shadowed the inherited method with a plain value, that call raises
`TypeError` (the `except` clause logs and re-raises); otherwise the mutated
configuration is persisted and returned. -/
def updateConfig (c : RAGConfiguration) (kwargs : List (String × CfgVal)) :
    Except String RAGConfiguration :=
  match (applyKwargs c kwargs).save with
  | none => .ok (applyKwargs c kwargs)
  | some _ => .error ( "TypeError: shadowed save attribute is not callable")

/-! ## Auxiliary predicates and shadows used by the verification -/

/-- The id invariant of the splitter state: the accumulated chunks carry ids
`0, 1, ..., len-1` and the next id is the current count. -/
def IdState (st : SplitState) : Prop :=
  st.chunks.map (fun c => c.chunk_id) = List.range st.chunks.length ∧
    st.nextId = st.chunks.length

/-- The count vector of `_simple_embedding` before the rational cast: the same
computation as `simpleEmbeddingRaw`, carried out in `ℕ`. -/
def simpleEmbeddingRawNat (text : List Char) : List ℕ :=
  let words := embWords text
  vocabL.map (fun v => words.count v) ++
    ((words.dedup.take 20).filter (fun w => w ∉ vocabL)).map (fun w => words.count w)

end LocalRAG

namespace LocalRAG

/-! ## Lemmas about the stable sorts -/

theorem mem_insertDescS {α κ : Type} [LinearOrder κ] (key : α → κ) (x a : α)
    (ys : List α) : a ∈ insertDescS key x ys ↔ a = x ∨ a ∈ ys := by
  induction ys with
  | nil => simp [insertDescS]
  | cons y ys ih =>
    simp only [insertDescS]
    split
    · simp [List.mem_cons]
    · simp only [List.mem_cons, ih]
      tauto

theorem mem_stableSortDesc {α κ : Type} [LinearOrder κ] (key : α → κ) (a : α)
    (l : List α) : a ∈ stableSortDesc key l ↔ a ∈ l := by
  induction l with
  | nil => simp [stableSortDesc]
  | cons x l ih =>
    show a ∈ insertDescS key x (stableSortDesc key l) ↔ _
    rw [mem_insertDescS, ih, List.mem_cons]

theorem mem_insertAscS {α κ : Type} [LinearOrder κ] (key : α → κ) (x a : α)
    (ys : List α) : a ∈ insertAscS key x ys ↔ a = x ∨ a ∈ ys := by
  induction ys with
  | nil => simp [insertAscS]
  | cons y ys ih =>
    simp only [insertAscS]
    split
    · simp [List.mem_cons]
    · simp only [List.mem_cons, ih]
      tauto

theorem mem_stableSortAsc {α κ : Type} [LinearOrder κ] (key : α → κ) (a : α)
    (l : List α) : a ∈ stableSortAsc key l ↔ a ∈ l := by
  induction l with
  | nil => simp [stableSortAsc]
  | cons x l ih =>
    show a ∈ insertAscS key x (stableSortAsc key l) ↔ _
    rw [mem_insertAscS, ih, List.mem_cons]

/-- Inserting an element whose position index is below every index of a
descending-sorted list keeps the list sorted in the stable descending order:
strictly larger key first, equal keys in ascending index order. -/
theorem pairwise_insertDescS {α κ : Type} [LinearOrder κ] (key : α → κ) (idx : α → ℕ)
    (x : α) (ys : List α)
    (hys : ys.Pairwise (fun a b => key b < key a ∨ (key a = key b ∧ idx a < idx b)))
    (hx : ∀ y ∈ ys, idx x < idx y) :
    (insertDescS key x ys).Pairwise
      (fun a b => key b < key a ∨ (key a = key b ∧ idx a < idx b)) := by
  induction ys with
  | nil => simp [insertDescS]
  | cons y ys ih =>
    rw [List.pairwise_cons] at hys
    simp only [insertDescS]
    split
    · rename_i hkey
      refine List.Pairwise.cons ?_ (List.Pairwise.cons hys.1 hys.2)
      intro z hz
      rcases List.mem_cons.mp hz with rfl | hz'
      · rcases lt_or_eq_of_le hkey with h | h
        · exact Or.inl h
        · exact Or.inr ⟨h.symm, hx z (List.mem_cons_self _ _)⟩
      · have hyz := hys.1 z hz'
        have hzy : key z ≤ key y := by
          rcases hyz with h | h
          · exact le_of_lt h
          · exact le_of_eq h.1.symm
        rcases lt_or_eq_of_le (le_trans hzy hkey) with h | h
        · exact Or.inl h
        · exact Or.inr ⟨h.symm, hx z (List.mem_cons_of_mem _ hz')⟩
    · rename_i hkey
      push_neg at hkey
      refine List.Pairwise.cons ?_ ?_
      · intro z hz
        rcases (mem_insertDescS key x z ys).mp hz with rfl | hz'
        · exact Or.inl hkey
        · exact hys.1 z hz'
      · exact ih hys.2 (fun z hz => hx z (List.mem_cons_of_mem _ hz))

/-- Python's stable `list.sort(key=..., reverse=True)` on a list with strictly
increasing position indices: descending keys, ties in ascending index order. -/
theorem pairwise_stableSortDesc {α κ : Type} [LinearOrder κ] (key : α → κ) (idx : α → ℕ)
    (l : List α) (h : l.Pairwise (fun a b => idx a < idx b)) :
    (stableSortDesc key l).Pairwise
      (fun a b => key b < key a ∨ (key a = key b ∧ idx a < idx b)) := by
  induction l with
  | nil => simp [stableSortDesc]
  | cons x l ih =>
    rw [List.pairwise_cons] at h
    show (insertDescS key x (stableSortDesc key l)).Pairwise _
    exact pairwise_insertDescS key idx x _ (ih h.2)
      (fun y hy => h.1 y ((mem_stableSortDesc key y l).mp hy))

/-- Counterpart of `pairwise_insertDescS` for the ascending sort. -/
theorem pairwise_insertAscS {α κ : Type} [LinearOrder κ] (key : α → κ) (idx : α → ℕ)
    (x : α) (ys : List α)
    (hys : ys.Pairwise (fun a b => key a < key b ∨ (key a = key b ∧ idx a < idx b)))
    (hx : ∀ y ∈ ys, idx x < idx y) :
    (insertAscS key x ys).Pairwise
      (fun a b => key a < key b ∨ (key a = key b ∧ idx a < idx b)) := by
  induction ys with
  | nil => simp [insertAscS]
  | cons y ys ih =>
    rw [List.pairwise_cons] at hys
    simp only [insertAscS]
    split
    · rename_i hkey
      refine List.Pairwise.cons ?_ (List.Pairwise.cons hys.1 hys.2)
      intro z hz
      rcases List.mem_cons.mp hz with rfl | hz'
      · rcases lt_or_eq_of_le hkey with h | h
        · exact Or.inl h
        · exact Or.inr ⟨h, hx z (List.mem_cons_self _ _)⟩
      · have hyz := hys.1 z hz'
        have hzy : key y ≤ key z := by
          rcases hyz with h | h
          · exact le_of_lt h
          · exact le_of_eq h.1
        rcases lt_or_eq_of_le (le_trans hkey hzy) with h | h
        · exact Or.inl h
        · exact Or.inr ⟨h, hx z (List.mem_cons_of_mem _ hz')⟩
    · rename_i hkey
      push_neg at hkey
      refine List.Pairwise.cons ?_ ?_
      · intro z hz
        rcases (mem_insertAscS key x z ys).mp hz with rfl | hz'
        · exact Or.inl hkey
        · exact hys.1 z hz'
      · exact ih hys.2 (fun z hz => hx z (List.mem_cons_of_mem _ hz))

/-- The modelled `numpy.argsort` order: ascending keys, ties in ascending
index order. -/
theorem pairwise_stableSortAsc {α κ : Type} [LinearOrder κ] (key : α → κ) (idx : α → ℕ)
    (l : List α) (h : l.Pairwise (fun a b => idx a < idx b)) :
    (stableSortAsc key l).Pairwise
      (fun a b => key a < key b ∨ (key a = key b ∧ idx a < idx b)) := by
  induction l with
  | nil => simp [stableSortAsc]
  | cons x l ih =>
    rw [List.pairwise_cons] at h
    show (insertAscS key x (stableSortAsc key l)).Pairwise _
    exact pairwise_insertAscS key idx x _ (ih h.2)
      (fun y hy => h.1 y ((mem_stableSortAsc key y l).mp hy))

/-! ## Lemmas about `List.enum` -/

theorem pairwise_fst_lt_enumFrom {α : Type} (l : List α) :
    ∀ n : ℕ, (l.enumFrom n).Pairwise (fun a b => a.1 < b.1) := by
  induction l with
  | nil => intro n; simp
  | cons x l ih =>
    intro n
    refine List.Pairwise.cons ?_ (ih (n + 1))
    intro p hp
    have := (List.mem_enumFrom hp).1
    omega

theorem pairwise_fst_lt_enum {α : Type} (l : List α) :
    l.enum.Pairwise (fun a b => a.1 < b.1) :=
  pairwise_fst_lt_enumFrom l 0

theorem getD_of_mem_enum {α : Type} [Inhabited α] (l : List α) (p : ℕ × α)
    (hp : p ∈ l.enum) : l.getD p.1 default = p.2 := by
  have h := List.mem_enum_iff_getElem?.mp (by exact (Prod.mk.eta (p := p)) ▸ hp)
  simp [List.getD_eq_getElem?_getD, h]

end LocalRAG

namespace LocalRAG

/-! ## Ranking order of the two retrieval paths (claim C2) -/

theorem similaritySearch_eq_mapped (sims : List ℚ) (topk : ℕ) :
    similaritySearch sims topk =
      ((((stableSortAsc (fun p => p.2) sims.enum).reverse).take topk).map
          (fun p => p.1)).enum.map
        (fun p => (⟨p.2, sims.getD p.2 0, p.1 + 1⟩ : SimResult)) := by
  unfold similaritySearch npArgsort
  rw [← List.map_reverse, ← List.map_take]

theorem similaritySearch_pairwise (sims : List ℚ) (topk : ℕ) :
    (similaritySearch sims topk).Pairwise
      (fun r1 r2 => r2.similarity < r1.similarity ∨
        (r1.similarity = r2.similarity ∧ r2.index < r1.index)) := by
  have hsorted := pairwise_stableSortAsc (fun p : ℕ × ℚ => p.2) (fun p => p.1)
    sims.enum (pairwise_fst_lt_enum sims)
  set sorted := stableSortAsc (fun p : ℕ × ℚ => p.2) sims.enum with hsortedDef
  set tps := (sorted.reverse).take topk with htpsDef
  have htps : tps.Pairwise (fun a b => b.2 < a.2 ∨ (b.2 = a.2 ∧ b.1 < a.1)) := by
    refine List.Pairwise.sublist (List.take_sublist _ _) ?_
    exact (List.pairwise_reverse).mpr hsorted
  have hmem : ∀ p ∈ tps, sims.getD p.1 0 = p.2 := by
    intro p hp
    apply getD_of_mem_enum
    have hp1 : p ∈ sorted.reverse := (List.take_sublist _ _).subset hp
    have hp2 : p ∈ sorted := List.mem_reverse.mp hp1
    exact (mem_stableSortAsc _ p _).mp hp2
  rw [similaritySearch_eq_mapped]
  rw [List.pairwise_map]
  have hT : tps.Pairwise (fun a b =>
      sims.getD b.1 0 < sims.getD a.1 0 ∨
        (sims.getD a.1 0 = sims.getD b.1 0 ∧ b.1 < a.1)) := by
    refine htps.imp_of_mem ?_
    intro a b ha hb hab
    rw [hmem a ha, hmem b hb]
    rcases hab with h | h
    · exact Or.inl h
    · exact Or.inr ⟨h.1.symm, h.2⟩
  have hmap : (tps.map (fun p => p.1)).Pairwise (fun i j =>
      sims.getD j 0 < sims.getD i 0 ∨ (sims.getD i 0 = sims.getD j 0 ∧ j < i)) :=
    (List.pairwise_map).mpr hT
  have henum : ((tps.map (fun p => p.1)).enum).Pairwise (fun q1 q2 =>
      sims.getD q2.2 0 < sims.getD q1.2 0 ∨
        (sims.getD q1.2 0 = sims.getD q2.2 0 ∧ q2.2 < q1.2)) := by
    have := (List.pairwise_map (f := Prod.snd)).mp
      (by rw [List.enum_map_snd]; exact hmap)
    exact this
  exact henum.imp (fun h => h)

theorem retrieveRelevantChunksE_eq_mapped (chunks : List Chunk) (sims : List ℚ)
    (topk : ℕ) :
    retrieveRelevantChunksE (some (chunks, sims)) topk =
      ((stableSortDesc (fun p => p.2) sims.enum).take topk).map
        (fun p => (chunks.getD p.1 default, sims.getD p.1 0)) := by
  simp only [retrieveRelevantChunksE, List.map_map]
  rfl

/-- Claim C2, amended.  For every similarity array and every `top_k`, both
retrieval paths return results sorted in strictly descending ranking order and
both are deterministic functions of their input; but the two paths break ties
between equal similarity values in opposite directions: the numpy path
`EmbeddingGenerator.similarity_search` (`np.argsort(...)[::-1]`) orders equal
scores by *descending* chunk insertion index, while
`RAGEngine.retrieve_relevant_chunks` (stable `list.sort(reverse=True)`) orders
them by *ascending* insertion index. -/
theorem C2_ranking_order (sims : List ℚ) (topk : ℕ) (chunks : List Chunk) :
    (similaritySearch sims topk).Pairwise
      (fun r1 r2 => r2.similarity < r1.similarity ∨
        (r1.similarity = r2.similarity ∧ r2.index < r1.index)) ∧
    ((stableSortDesc (fun p : ℕ × ℚ => p.2) sims.enum).take topk).Pairwise
      (fun a b => b.2 < a.2 ∨ (a.2 = b.2 ∧ a.1 < b.1)) ∧
    retrieveRelevantChunksE (some (chunks, sims)) topk =
      ((stableSortDesc (fun p : ℕ × ℚ => p.2) sims.enum).take topk).map
        (fun p => (chunks.getD p.1 default, sims.getD p.1 0)) := by
  refine ⟨similaritySearch_pairwise sims topk, ?_, retrieveRelevantChunksE_eq_mapped chunks sims topk⟩
  refine List.Pairwise.sublist (List.take_sublist _ _) ?_
  exact pairwise_stableSortDesc (fun p : ℕ × ℚ => p.2) (fun p => p.1)
    sims.enum (pairwise_fst_lt_enum sims)

/-- Claim C2, counterexample to the claim as stated: with two indexed vectors
of equal similarity `1`, `similarity_search` does *not* order the tie by
ascending chunk insertion order — it returns index 1 before index 0. -/
theorem C2_counterexample :
    ¬ (similaritySearch [1, 1] 2).Pairwise
        (fun r1 r2 => r2.similarity < r1.similarity ∨
          (r1.similarity = r2.similarity ∧ r1.index < r2.index)) ∧
    (similaritySearch [1, 1] 2).map (fun r => r.index) = [1, 0] := by
  constructor
  · decide
  · decide

end LocalRAG

namespace LocalRAG

/-! ## Chunk-id density of the chunker (claim C3) -/

theorem foldl_preserve {α β : Type} (P : β → Prop) (f : β → α → β)
    (hf : ∀ b a, P b → P (f b a)) : ∀ (l : List α) (b : β), P b → P (l.foldl f b) := by
  intro l
  induction l with
  | nil => intro b hb; exact hb
  | cons a l ih => intro b hb; exact ih (f b a) (hf b a hb)

theorem IdState.emit (pn : ℕ) (st : SplitState) (h : IdState st) :
    IdState (emitChunk pn st) := by
  obtain ⟨h1, h2⟩ := h
  constructor
  · simp only [emitChunk, List.map_append, List.length_append, h1, h2, List.map_cons,
      List.map_nil, List.length_cons, List.length_nil]
    rw [List.range_succ]
  · simp [emitChunk, h2]

theorem IdState.processSentence (csize cov pn : ℕ) {st : SplitState} (s : List Char)
    (h : IdState st) : IdState (LocalRAG.processSentence csize cov pn st s) := by
  simp only [LocalRAG.processSentence]
  split_ifs
  all_goals
    first
      | exact h
      | exact ⟨h.1, h.2⟩
      | exact ⟨(h.emit pn).1, (h.emit pn).2⟩

theorem IdState.processPage (csize cov : ℕ) (p : PageText) (acc : List Chunk × ℕ)
    (h : acc.1.map (fun c => c.chunk_id) = List.range acc.1.length ∧ acc.2 = acc.1.length) :
    (LocalRAG.processPage csize cov acc p).1.map (fun c => c.chunk_id) =
        List.range (LocalRAG.processPage csize cov acc p).1.length ∧
      (LocalRAG.processPage csize cov acc p).2 =
        (LocalRAG.processPage csize cov acc p).1.length := by
  have h0 : IdState ⟨[], [], acc.1, acc.2⟩ := ⟨h.1, h.2⟩
  have h1 : IdState ((splitSentences p.text).foldl
      (LocalRAG.processSentence csize cov p.page_number) ⟨[], [], acc.1, acc.2⟩) :=
    foldl_preserve IdState _ (fun b a hb => hb.processSentence csize cov p.page_number a)
      (splitSentences p.text) _ h0
  simp only [LocalRAG.processPage]
  split_ifs with hc
  · exact ⟨(h1.emit p.page_number).1, (h1.emit p.page_number).2⟩
  · exact ⟨h1.1, h1.2⟩

/-- Claim C3, amended (index part): for every input and both parameters, the
chunker's emitted chunks carry exactly the ids `0, 1, ..., n-1` in emission
order. -/
theorem C3_dense_indices (csize cov : ℕ) (pages : List PageText) :
    (textSplitter csize cov pages).map (fun c => c.chunk_id) =
      List.range (textSplitter csize cov pages).length := by
  unfold textSplitter
  have := foldl_preserve
    (fun acc : List Chunk × ℕ =>
      acc.1.map (fun c => c.chunk_id) = List.range acc.1.length ∧ acc.2 = acc.1.length)
    (processPage csize cov)
    (fun acc p h => IdState.processPage csize cov p acc h)
    pages ([], 0) (by simp)
  exact this.1

/-- Claim C3, counterexample to the size bound as stated: with
`chunk_size = 10`, `chunk_overlap = 50` and the page text
`"aaaa. bbbb. cccc"` (every sentence 4 characters long), the overlap-seeded
second chunk is `"aaaa. bbbb."` — 11 characters, exceeding `chunk_size` even
though no single sentence exceeds it. -/
theorem C3_counterexample :
    ¬ (∀ c ∈ textSplitter 10 50 [⟨1, ( "aaaa. bbbb. cccc").data⟩],
          c.text.length ≤ 10 ∨
            ∃ p ∈ [PageText.mk 1 (( "aaaa. bbbb. cccc").data)],
              ∃ s ∈ splitSentences p.text, 10 < (trim s).length) := by decide

end LocalRAG

namespace LocalRAG

/-! ## Page-locality of the chunker (claim C10) -/

theorem shiftIds_append (n : ℕ) (a b : List Chunk) :
    shiftIds n (a ++ b) = shiftIds n a ++ shiftIds n b := by
  simp [shiftIds]

theorem shiftIds_shiftIds (n m : ℕ) (cs : List Chunk) :
    shiftIds n (shiftIds m cs) = shiftIds (m + n) cs := by
  simp [shiftIds, Nat.add_assoc]

theorem shiftIds_zero (cs : List Chunk) : shiftIds 0 cs = cs := by
  simp [shiftIds]

theorem shiftIds_length (n : ℕ) (cs : List Chunk) :
    (shiftIds n cs).length = cs.length := by
  simp [shiftIds]

/-- One sentence step started at an arbitrary accumulator equals the step
started at the empty accumulator, with the produced chunk ids shifted. -/
theorem processSentence_shift (csize cov pn : ℕ) (st : SplitState) (s : List Char) :
    processSentence csize cov pn st s =
      ⟨(processSentence csize cov pn ⟨st.cur, st.sents, [], 0⟩ s).cur,
       (processSentence csize cov pn ⟨st.cur, st.sents, [], 0⟩ s).sents,
       st.chunks ++
         shiftIds st.nextId (processSentence csize cov pn ⟨st.cur, st.sents, [], 0⟩ s).chunks,
       st.nextId + (processSentence csize cov pn ⟨st.cur, st.sents, [], 0⟩ s).nextId⟩ := by
  obtain ⟨cur, sents, out, n⟩ := st
  simp only [processSentence, emitChunk]
  split_ifs
  all_goals simp [shiftIds]

/-- The whole sentence loop started at an arbitrary accumulator equals the
loop started at the empty accumulator, with chunk ids shifted. -/
theorem foldSentences_shift (csize cov pn : ℕ) (ss : List (List Char)) :
    ∀ st : SplitState,
      ss.foldl (processSentence csize cov pn) st =
        ⟨(ss.foldl (processSentence csize cov pn) ⟨st.cur, st.sents, [], 0⟩).cur,
         (ss.foldl (processSentence csize cov pn) ⟨st.cur, st.sents, [], 0⟩).sents,
         st.chunks ++ shiftIds st.nextId
           (ss.foldl (processSentence csize cov pn) ⟨st.cur, st.sents, [], 0⟩).chunks,
         st.nextId + (ss.foldl (processSentence csize cov pn) ⟨st.cur, st.sents, [], 0⟩).nextId⟩ := by
  induction ss with
  | nil =>
    intro st
    simp [shiftIds]
  | cons s ss ih =>
    intro st
    have h1 := processSentence_shift csize cov pn st s
    have h2 := ih (processSentence csize cov pn st s)
    have h3 := ih (processSentence csize cov pn ⟨st.cur, st.sents, [], 0⟩ s)
    simp only [List.foldl_cons]
    rw [h2, h3, h1]
    simp [shiftIds_append, shiftIds_shiftIds, List.append_assoc, Nat.add_assoc,
      Nat.add_comm, Nat.add_left_comm]

/-- One page step started at an arbitrary accumulator: the page's chunks are
those it contributes on its own, ids shifted by the accumulated count. -/
theorem processPage_shift (csize cov : ℕ) (p : PageText) (out : List Chunk) (n : ℕ) :
    processPage csize cov (out, n) p =
      (out ++ shiftIds n (pageChunksRaw csize cov p),
       n + (processPage csize cov ([], 0) p).2) := by
  simp only [processPage, pageChunksRaw]
  rw [foldSentences_shift]
  dsimp only
  split_ifs
  · simp [emitChunk, shiftIds_append, shiftIds, Nat.add_comm, Nat.add_assoc,
      Nat.add_left_comm]
  · simp

theorem pageChunksRaw_next (csize cov : ℕ) (p : PageText) :
    (processPage csize cov ([], 0) p).2 = (pageChunksRaw csize cov p).length := by
  have := IdState.processPage csize cov p ([], 0) (by simp)
  exact this.2

theorem foldPages_shift (csize cov : ℕ) (pages : List PageText) :
    ∀ (out : List Chunk) (n : ℕ),
      pages.foldl (processPage csize cov) (out, n) =
        (out ++ shiftIds n (textSplitter csize cov pages),
         n + (pages.foldl (processPage csize cov) ([], 0)).2) := by
  induction pages with
  | nil =>
    intro out n
    simp [textSplitter, shiftIds]
  | cons p pages ih =>
    intro out n
    simp only [List.foldl_cons]
    rw [processPage_shift]
    rw [ih]
    have hts : textSplitter csize cov (p :: pages) =
        pageChunksRaw csize cov p ++
          shiftIds (processPage csize cov ([], 0) p).2 (textSplitter csize cov pages) := by
      show (List.foldl (processPage csize cov) (processPage csize cov ([], 0) p) (p :: pages).tail).1 = _
      dsimp only [List.tail_cons]
      have : processPage csize cov ([], 0) p =
          ((processPage csize cov ([], 0) p).1, (processPage csize cov ([], 0) p).2) := rfl
      rw [this, ih]
      simp [pageChunksRaw]
    rw [hts]
    have hsnd : (pages.foldl (processPage csize cov) (processPage csize cov ([], 0) p)).2 =
        (processPage csize cov ([], 0) p).2 +
          (pages.foldl (processPage csize cov) ([], 0)).2 := by
      have : processPage csize cov ([], 0) p =
          ((processPage csize cov ([], 0) p).1, (processPage csize cov ([], 0) p).2) := rfl
      rw [this, ih]
    rw [hsnd]
    simp [shiftIds_append, shiftIds_shiftIds, List.append_assoc, Nat.add_assoc,
      Nat.add_comm, Nat.add_left_comm]

/-- Unrolling of the splitter over its first page. -/
theorem textSplitter_cons (csize cov : ℕ) (p : PageText) (pages : List PageText) :
    textSplitter csize cov (p :: pages) =
      pageChunksRaw csize cov p ++
        shiftIds (pageChunksRaw csize cov p).length (textSplitter csize cov pages) := by
  show (List.foldl (processPage csize cov) (processPage csize cov ([], 0) p) pages).1 = _
  have : processPage csize cov ([], 0) p =
      ((processPage csize cov ([], 0) p).1, (processPage csize cov ([], 0) p).2) := rfl
  rw [this, foldPages_shift]
  simp [pageChunksRaw, pageChunksRaw_next]

end LocalRAG

namespace LocalRAG

theorem enumFrom_add {α : Type} (l : List α) (n : ℕ) :
    ∀ m : ℕ, l.enumFrom (m + n) = (l.enumFrom m).map (fun p => (p.1 + n, p.2)) := by
  induction l with
  | nil => intro m; simp
  | cons x l ih =>
    intro m
    simp only [List.enumFrom_cons, List.map_cons]
    refine congrArg _ ?_
    have : m + n + 1 = (m + 1) + n := by omega
    rw [this, ih (m + 1)]

theorem enumFrom_eq_map_enum {α : Type} (l : List α) (n : ℕ) :
    l.enumFrom n = l.enum.map (fun p => (p.1 + n, p.2)) := by
  have := enumFrom_add l n 0
  simpa [List.enum] using this

theorem withIds_append (a b : List Chunk) :
    withIds (a ++ b) = withIds a ++ shiftIds a.length (withIds b) := by
  simp only [withIds, List.enum_append, List.map_append, shiftIds]
  refine congrArg _ ?_
  rw [enumFrom_eq_map_enum]
  simp [List.map_map]

theorem chunk_set_id_self (c : Chunk) (j : ℕ) (hj : c.chunk_id = j) :
    ({ c with chunk_id := j } : Chunk) = c := by
  cases c
  simp_all

theorem withIds_of_dense (cs : List Chunk)
    (h : cs.map (fun c => c.chunk_id) = List.range cs.length) : withIds cs = cs := by
  apply List.ext_getElem
  · simp [withIds]
  · intro i h1 h2
    have hid : cs[i].chunk_id = i := by
      have := congrArg (fun l => l[i]?) h
      simp only [List.getElem?_map] at this
      rw [List.getElem?_eq_getElem h2, List.getElem?_eq_getElem (by simpa using h2)] at this
      simpa using this
    show (cs.enum.map _)[i] = cs[i]
    rw [List.getElem_map, List.getElem_enum]
    exact chunk_set_id_self (cs[i]) i hid

theorem pageChunksRaw_ids (csize cov : ℕ) (p : PageText) :
    (pageChunksRaw csize cov p).map (fun c => c.chunk_id) =
      List.range (pageChunksRaw csize cov p).length := by
  have := IdState.processPage csize cov p ([], 0) (by simp)
  exact this.1

/-- Every chunk a page contributes carries that page's page number. -/
theorem pageChunksRaw_pn (csize cov : ℕ) (p : PageText) :
    ∀ c ∈ pageChunksRaw csize cov p, c.page_number = p.page_number := by
  have hstep : ∀ (st : SplitState) (s : List Char),
      (∀ c ∈ st.chunks, c.page_number = p.page_number) →
      ∀ c ∈ (processSentence csize cov p.page_number st s).chunks,
        c.page_number = p.page_number := by
    intro st s h
    simp only [processSentence, emitChunk]
    split_ifs
    all_goals intro c hc
    all_goals try simp only [List.mem_append, List.mem_singleton] at hc
    all_goals first
      | exact h c hc
      | (rcases hc with hc | hc
         · exact h c hc
         · rw [hc])
  have hfold : ∀ c ∈ ((splitSentences p.text).foldl
      (processSentence csize cov p.page_number) ⟨[], [], [], 0⟩).chunks,
      c.page_number = p.page_number := by
    refine foldl_preserve
      (fun st : SplitState => ∀ c ∈ st.chunks, c.page_number = p.page_number)
      _ hstep (splitSentences p.text) _ ?_
    intro c hc
    exact absurd hc (List.not_mem_nil c)
  intro c hc
  simp only [pageChunksRaw, processPage] at hc
  revert hc
  split_ifs
  · intro hc
    simp only [emitChunk, List.mem_append, List.mem_singleton] at hc
    rcases hc with hc | hc
    · exact hfold c hc
    · rw [hc]
  · intro hc
    exact hfold c hc

/-- Chunks of the splitter output only come from pages of the input. -/
theorem textSplitter_mem_pn (csize cov : ℕ) (pages : List PageText) :
    ∀ c ∈ textSplitter csize cov pages, ∃ p ∈ pages, c.page_number = p.page_number := by
  induction pages with
  | nil => intro c hc; simp [textSplitter] at hc
  | cons p pages ih =>
    intro c hc
    rw [textSplitter_cons] at hc
    rcases List.mem_append.mp hc with hc | hc
    · exact ⟨p, List.mem_cons_self _ _, pageChunksRaw_pn csize cov p c hc⟩
    · simp only [shiftIds, List.mem_map] at hc
      obtain ⟨c0, hc0, rfl⟩ := hc
      obtain ⟨q, hq, hqn⟩ := ih c0 hc0
      exact ⟨q, List.mem_cons_of_mem _ hq, hqn⟩

theorem pairwise_enum_of_pairwise {α : Type} (R : α → α → Prop) (l : List α)
    (h : l.Pairwise R) : l.enum.Pairwise (fun a b => R a.2 b.2) :=
  (List.pairwise_map (f := Prod.snd)).mp (by rwa [List.enum_map_snd])

/-- Claim C10.  Chunking is page-local: the splitter output is exactly the
concatenation, in input page order, of the chunks each page contributes on its
own (so no chunk mixes sentences of two pages and the overlap seeding never
crosses a page boundary — each page restarts from an empty buffer), renumbered
sequentially; every chunk of a page carries that page's number; and for pages
in ascending page order the output is grouped in ascending page order. -/
theorem C10_page_locality (csize cov : ℕ) (pages : List PageText)
    (hasc : pages.Pairwise (fun p q => p.page_number ≤ q.page_number)) :
    textSplitter csize cov pages =
        withIds (pages.flatMap (pageChunksRaw csize cov)) ∧
      (∀ p ∈ pages, ∀ c ∈ pageChunksRaw csize cov p, c.page_number = p.page_number) ∧
      (textSplitter csize cov pages).Pairwise
        (fun c d => c.page_number ≤ d.page_number) := by
  refine ⟨?_, fun p _ => pageChunksRaw_pn csize cov p, ?_⟩
  · clear hasc
    induction pages with
    | nil => simp [textSplitter, withIds]
    | cons p pages ih =>
      rw [textSplitter_cons, List.flatMap_cons, withIds_append, ih,
        withIds_of_dense _ (pageChunksRaw_ids csize cov p)]
  · induction pages with
    | nil => simp [textSplitter]
    | cons p pages ih =>
      rw [List.pairwise_cons] at hasc
      rw [textSplitter_cons]
      rw [List.pairwise_append]
      refine ⟨?_, ?_, ?_⟩
      · refine List.pairwise_of_forall_mem_list ?_
        intro a ha b hb
        rw [pageChunksRaw_pn csize cov p a ha, pageChunksRaw_pn csize cov p b hb]
      · refine (List.pairwise_map).mpr ?_
        exact (ih hasc.2).imp (fun h => h)
      · intro a ha b hb
        rw [pageChunksRaw_pn csize cov p a ha]
        simp only [shiftIds, List.mem_map] at hb
        obtain ⟨b0, hb0, rfl⟩ := hb
        obtain ⟨q, hq, hqn⟩ := textSplitter_mem_pn csize cov pages b0 hb0
        show p.page_number ≤ b0.page_number
        rw [hqn]
        exact hasc.1 q hq

/-- Witness for C10 at a concrete two-page input. -/
theorem C10_page_locality_witness :
    ([⟨1, ( "aa. bb").data⟩, ⟨2, ( "cc").data⟩] : List PageText).Pairwise
        (fun p q => p.page_number ≤ q.page_number) ∧
      (textSplitter 5 0 [⟨1, ( "aa. bb").data⟩, ⟨2, ( "cc").data⟩] =
          withIds (([⟨1, ( "aa. bb").data⟩, ⟨2, ( "cc").data⟩] :
            List PageText).flatMap (pageChunksRaw 5 0)) ∧
        (∀ p ∈ ([⟨1, ( "aa. bb").data⟩, ⟨2, ( "cc").data⟩] : List PageText),
          ∀ c ∈ pageChunksRaw 5 0 p, c.page_number = p.page_number) ∧
        (textSplitter 5 0 [⟨1, ( "aa. bb").data⟩, ⟨2, ( "cc").data⟩]).Pairwise
          (fun c d => c.page_number ≤ d.page_number)) :=
  ⟨by decide, C10_page_locality 5 0 _ (by decide)⟩

end LocalRAG

namespace LocalRAG

/-! ## Vector-store uniqueness and idempotence (claim C7) -/

theorem getOrCreate_of_present (store : List (EmbKey × List ℚ)) (key : EmbKey)
    (vec : List ℚ) (h : store.any (fun e => e.1 = key) = true) :
    getOrCreate store key vec = store := by
  simp [getOrCreate, h]

theorem getOrCreate_any_mono (store : List (EmbKey × List ℚ)) (key : EmbKey)
    (vec : List ℚ) (p : EmbKey × List ℚ → Bool) (h : store.any p = true) :
    (getOrCreate store key vec).any p = true := by
  unfold getOrCreate
  split
  · exact h
  · simp [List.any_append, h]

theorem getOrCreate_nodup (store : List (EmbKey × List ℚ)) (key : EmbKey)
    (vec : List ℚ) (h : (store.map (fun e => e.1)).Nodup) :
    ((getOrCreate store key vec).map (fun e => e.1)).Nodup := by
  unfold getOrCreate
  split
  · exact h
  · rename_i hany
    simp only [List.any_eq_true, not_exists, not_and, Bool.not_eq_true] at hany
    simp only [List.map_append, List.map_cons, List.map_nil, List.nodup_append]
    refine ⟨h, List.nodup_singleton _, ?_⟩
    intro a ha hb
    simp only [List.mem_map] at ha
    obtain ⟨e, he, rfl⟩ := ha
    simp only [List.mem_singleton] at hb
    have := hany e he
    simp [hb] at this

theorem createEmbeddings_nodup (store : List (EmbKey × List ℚ))
    (chunks : List (ℕ × String)) (m : String) (f : String → List ℚ)
    (h : (store.map (fun e => e.1)).Nodup) :
    ((createEmbeddingsForDocument store chunks m f).map (fun e => e.1)).Nodup := by
  unfold createEmbeddingsForDocument
  exact foldl_preserve
    (fun st : List (EmbKey × List ℚ) => (st.map (fun e => e.1)).Nodup)
    _ (fun st ch hst => getOrCreate_nodup st (ch.1, m) (f ch.2) hst) chunks store h

theorem createEmbeddings_any_mono (store : List (EmbKey × List ℚ))
    (chunks : List (ℕ × String)) (m : String) (f : String → List ℚ)
    (p : EmbKey × List ℚ → Bool) (h : store.any p = true) :
    (createEmbeddingsForDocument store chunks m f).any p = true := by
  unfold createEmbeddingsForDocument
  exact foldl_preserve (fun st : List (EmbKey × List ℚ) => st.any p = true)
    _ (fun st ch hst => getOrCreate_any_mono st (ch.1, m) (f ch.2) p hst) chunks store h

theorem createEmbeddings_present (chunks : List (ℕ × String)) (m : String)
    (f : String → List ℚ) :
    ∀ (store : List (EmbKey × List ℚ)), ∀ ch ∈ chunks,
      (createEmbeddingsForDocument store chunks m f).any
        (fun e => e.1 = (ch.1, m)) = true := by
  induction chunks with
  | nil => intro store ch hch; exact absurd hch (List.not_mem_nil ch)
  | cons c cs ih =>
    intro store ch hch
    show (createEmbeddingsForDocument (getOrCreate store (c.1, m) (f c.2)) cs m f).any _ = true
    rcases List.mem_cons.mp hch with rfl | hch'
    · refine createEmbeddings_any_mono _ cs m f _ ?_
      unfold getOrCreate
      split
      · assumption
      · simp
    · exact ih (getOrCreate store (c.1, m) (f c.2)) ch hch'

theorem createEmbeddings_of_all_present (m : String) (f : String → List ℚ) :
    ∀ (chunks : List (ℕ × String)) (store : List (EmbKey × List ℚ)),
      (∀ ch ∈ chunks, store.any (fun e => e.1 = (ch.1, m)) = true) →
      createEmbeddingsForDocument store chunks m f = store := by
  intro chunks
  induction chunks with
  | nil => intro store _; rfl
  | cons c cs ih =>
    intro store h
    show createEmbeddingsForDocument (getOrCreate store (c.1, m) (f c.2)) cs m f = store
    rw [getOrCreate_of_present store (c.1, m) (f c.2) (h c (List.mem_cons_self _ _))]
    exact ih store (fun ch hch => h ch (List.mem_cons_of_mem _ hch))

/-- Claim C7, amended.  The store keeps at most one vector per
(chunk, embedding-model) key (`get_or_create` under the `unique_together`
constraint preserves key uniqueness), and ingestion is idempotent: running
`create_embeddings_for_document` a second time with the same chunks and
encoder leaves the store exactly as after the first run.  (Re-indexing an
already-present key *keeps* the prior vector rather than replacing it — see
the counterexample.) -/
theorem C7_unique_and_idempotent (store : List (EmbKey × List ℚ))
    (chunks : List (ℕ × String)) (m : String) (f : String → List ℚ)
    (hnodup : (store.map (fun e => e.1)).Nodup) :
    ((createEmbeddingsForDocument store chunks m f).map (fun e => e.1)).Nodup ∧
      createEmbeddingsForDocument (createEmbeddingsForDocument store chunks m f)
          chunks m f =
        createEmbeddingsForDocument store chunks m f := by
  refine ⟨createEmbeddings_nodup store chunks m f hnodup, ?_⟩
  exact createEmbeddings_of_all_present m f chunks _
    (fun ch hch => createEmbeddings_present chunks m f store ch hch)

/-- Witness for C7 at a concrete store. -/
theorem C7_unique_and_idempotent_witness :
    (([((0, "m"), ([] : List ℚ))].map (fun e => e.1)).Nodup) ∧
      (((createEmbeddingsForDocument [((0, "m"), [])] [(1, "t")] ( "m")
            (fun _ => [5])).map (fun e => e.1)).Nodup ∧
        createEmbeddingsForDocument
            (createEmbeddingsForDocument [((0, "m"), [])] [(1, "t")] ( "m")
              (fun _ => [5])) [(1, "t")] ( "m") (fun _ => [5]) =
          createEmbeddingsForDocument [((0, "m"), [])] [(1, "t")] ( "m")
            (fun _ => [5])) :=
  ⟨by decide,
    C7_unique_and_idempotent [((0, "m"), [])] [(1, "t")] ( "m") (fun _ => [5])
      (by decide)⟩

/-- Claim C7, counterexample to "replaces the prior vector": re-indexing chunk
0 under model `"m"` with a *new* embedding `[2]` leaves the previously stored
vector `[1]` in place (`get_or_create` applies its defaults only on creation),
so the prior vector is kept, not replaced. -/
theorem C7_counterexample :
    createEmbeddingsForDocument [((0, "m"), [1])] [(0, "t")] ( "m")
        (fun _ => [2]) = [((0, "m"), [1])] ∧
      ¬ createEmbeddingsForDocument [((0, "m"), [1])] [(0, "t")] ( "m")
          (fun _ => [2]) = [((0, "m"), [2])] := by
  constructor
  · decide
  · decide

end LocalRAG

namespace LocalRAG

/-! ## Configuration update (claim C9) -/

theorem setAttr_not_mem (c : RAGConfiguration) (k : String) (v : CfgVal)
    (h : k ∉ configAttrNames) : setAttr c k v = c := by
  simp only [configAttrNames, List.mem_cons, List.not_mem_nil, or_false,
    not_or] at h
  obtain ⟨h1, h2, h3, h4, h5, h6, h7, h8, h9, h10, h11, h12⟩ := h
  simp [setAttr, h1, h2, h3, h4, h5, h6, h7, h8, h9, h10, h11, h12]

theorem getAttr_setAttr_ne (c : RAGConfiguration) (k' k : String) (v : CfgVal)
    (h : k' ≠ k) : getAttr (setAttr c k' v) k = getAttr c k := by
  by_cases hm : k' ∈ configAttrNames
  · simp only [configAttrNames, List.mem_cons, List.not_mem_nil, or_false] at hm
    rcases hm with rfl | rfl | rfl | rfl | rfl | rfl | rfl | rfl | rfl | rfl | rfl | rfl <;>
      simp [setAttr, getAttr, Ne.symm h]
  · rw [setAttr_not_mem c k' v hm]

theorem getAttr_setAttr_self (c : RAGConfiguration) (k : String) (v : CfgVal)
    (h : k ∈ configFieldNames) : getAttr (setAttr c k v) k = some v := by
  simp only [configFieldNames, List.mem_cons, List.not_mem_nil, or_false] at h
  rcases h with rfl | rfl | rfl | rfl | rfl | rfl | rfl <;> simp [setAttr, getAttr]

theorem setAttr_save_of_ne (c : RAGConfiguration) (k : String) (v : CfgVal)
    (h : k ≠ "save") : (setAttr c k v).save = c.save := by
  by_cases hm : k ∈ configAttrNames
  · simp only [configAttrNames, List.mem_cons, List.not_mem_nil, or_false] at hm
    rcases hm with rfl | rfl | rfl | rfl | rfl | rfl | rfl | rfl | rfl | rfl | rfl | rfl <;>
      first
        | exact absurd rfl h
        | simp [setAttr]
  · rw [setAttr_not_mem c k v hm]

theorem setAttr_save_isSome (c : RAGConfiguration) (k : String) (v : CfgVal)
    (h : c.save ≠ none) : (setAttr c k v).save ≠ none := by
  by_cases hm : k ∈ configAttrNames
  · simp only [configAttrNames, List.mem_cons, List.not_mem_nil, or_false] at hm
    rcases hm with rfl | rfl | rfl | rfl | rfl | rfl | rfl | rfl | rfl | rfl | rfl | rfl <;>
      · simp [setAttr]
        try exact h
  · rw [setAttr_not_mem c k v hm]
    exact h

theorem applyKwargs_save_of_not_mem (kwargs : List (String × CfgVal)) :
    ∀ c : RAGConfiguration, ( "save") ∉ kwargs.map (fun kv => kv.1) →
      (applyKwargs c kwargs).save = c.save := by
  induction kwargs with
  | nil => intro c _; rfl
  | cons kv kwargs ih =>
    intro c hk
    simp only [List.map_cons, List.mem_cons, not_or] at hk
    show (applyKwargs (setAttr c kv.1 kv.2) kwargs).save = _
    rw [ih _ hk.2, setAttr_save_of_ne c kv.1 kv.2 (fun he => hk.1 he.symm)]

theorem applyKwargs_save_isSome (kwargs : List (String × CfgVal)) :
    ∀ c : RAGConfiguration, c.save ≠ none → (applyKwargs c kwargs).save ≠ none := by
  induction kwargs with
  | nil => intro c h; exact h
  | cons kv kwargs ih =>
    intro c h
    exact ih _ (setAttr_save_isSome c kv.1 kv.2 h)

theorem applyKwargs_save_of_mem (kwargs : List (String × CfgVal)) :
    ∀ c : RAGConfiguration, ( "save") ∈ kwargs.map (fun kv => kv.1) →
      (applyKwargs c kwargs).save ≠ none := by
  induction kwargs with
  | nil => intro c h; exact absurd h (List.not_mem_nil _)
  | cons kv kwargs ih =>
    intro c h
    simp only [List.map_cons, List.mem_cons] at h
    rcases h with h | h
    · show (applyKwargs (setAttr c kv.1 kv.2) kwargs).save ≠ none
      refine applyKwargs_save_isSome kwargs _ ?_
      rw [← h]
      simp [setAttr]
    · show (applyKwargs (setAttr c kv.1 kv.2) kwargs).save ≠ none
      exact ih _ h

theorem applyKwargs_filter (kwargs : List (String × CfgVal)) :
    ∀ c : RAGConfiguration,
      applyKwargs c kwargs =
        applyKwargs c (kwargs.filter (fun kv => kv.1 ∈ configAttrNames)) := by
  induction kwargs with
  | nil => intro c; rfl
  | cons kv kwargs ih =>
    intro c
    show applyKwargs (setAttr c kv.1 kv.2) kwargs = _
    by_cases hk : kv.1 ∈ configAttrNames
    · rw [List.filter_cons_of_pos (by simpa using hk)]
      exact ih (setAttr c kv.1 kv.2)
    · rw [List.filter_cons_of_neg (by simpa using hk),
        setAttr_not_mem c kv.1 kv.2 hk]
      exact ih c

theorem applyKwargs_getAttr_not_key (kwargs : List (String × CfgVal)) :
    ∀ (c : RAGConfiguration) (k : String), k ∉ kwargs.map (fun kv => kv.1) →
      getAttr (applyKwargs c kwargs) k = getAttr c k := by
  induction kwargs with
  | nil => intro c k _; rfl
  | cons kv kwargs ih =>
    intro c k hk
    simp only [List.map_cons, List.mem_cons, not_or] at hk
    show getAttr (applyKwargs (setAttr c kv.1 kv.2) kwargs) k = _
    rw [ih _ k hk.2, getAttr_setAttr_ne _ _ _ _ (fun he => hk.1 he.symm)]

theorem applyKwargs_getAttr_key (kwargs : List (String × CfgVal)) :
    ∀ c : RAGConfiguration, (kwargs.map (fun kv => kv.1)).Nodup →
      ∀ k v, (k, v) ∈ kwargs → k ∈ configFieldNames →
        getAttr (applyKwargs c kwargs) k = some v := by
  induction kwargs with
  | nil =>
    intro c _ k v hkv
    exact absurd hkv (List.not_mem_nil _)
  | cons kv kwargs ih =>
    intro c hnodup k v hkv hkname
    rw [List.map_cons, List.nodup_cons] at hnodup
    show getAttr (applyKwargs (setAttr c kv.1 kv.2) kwargs) k = some v
    rcases List.mem_cons.mp hkv with rfl | hkv'
    · rw [applyKwargs_getAttr_not_key kwargs _ k (by simpa using hnodup.1)]
      exact getAttr_setAttr_self c k v hkname
    · exact ih (setAttr c kv.1 kv.2) hnodup.2 k v hkv' hkname

/-- Claim C9, amended.  `update_config` applies an argument whenever its name
is an *attribute* of the configuration instance (`hasattr`), not only for the
seven configuration fields.  Arguments whose name is no attribute at all are
ignored without error (dropping them changes nothing); when no argument is
named `save`, the update succeeds and persists, every tunable field not named
keeps its previous value, and (for the distinct keys of a `**kwargs` dict)
each named tunable is stored with exactly the supplied value; but an argument
named `save` shadows the inherited method and the subsequent
`self.config.save()` raises, and attribute arguments such as `user` or `id`
are applied and persisted rather than ignored. -/
theorem C9_update_config (c : RAGConfiguration) (kwargs : List (String × CfgVal))
    (hsave : c.save = none) :
    updateConfig c kwargs =
        updateConfig c (kwargs.filter (fun kv => kv.1 ∈ configAttrNames)) ∧
      (( "save") ∉ kwargs.map (fun kv => kv.1) →
        updateConfig c kwargs = .ok (applyKwargs c kwargs) ∧
        (∀ k ∈ configFieldNames, k ∉ kwargs.map (fun kv => kv.1) →
          getAttr (applyKwargs c kwargs) k = getAttr c k) ∧
        ((kwargs.map (fun kv => kv.1)).Nodup →
          ∀ k v, (k, v) ∈ kwargs → k ∈ configFieldNames →
            getAttr (applyKwargs c kwargs) k = some v)) ∧
      (( "save") ∈ kwargs.map (fun kv => kv.1) →
        updateConfig c kwargs =
          .error ( "TypeError: shadowed save attribute is not callable")) := by
  refine ⟨?_, ?_, ?_⟩
  · unfold updateConfig
    rw [← applyKwargs_filter kwargs c]
  · intro hns
    have hsv : (applyKwargs c kwargs).save = none := by
      rw [applyKwargs_save_of_not_mem kwargs c hns, hsave]
    refine ⟨?_, ?_, applyKwargs_getAttr_key kwargs c⟩
    · simp only [updateConfig, hsv]
    · intro k _ hk
      exact applyKwargs_getAttr_not_key kwargs c k hk
  · intro hs
    have hsv := applyKwargs_save_of_mem kwargs c hs
    unfold updateConfig
    rcases hopt : (applyKwargs c kwargs).save with _ | w
    · exact absurd hopt hsv
    · rfl

/-- Witness for C9: a recognized tunable together with a typo key succeeds,
keeps the untouched tunable and stores the supplied value; a `save` key makes
the same call raise. -/
theorem C9_update_config_witness :
    defaultConfiguration.save = none ∧
      ( "save") ∉ ([( "top_k", CfgVal.n 3), ( "bogus", CfgVal.s ( "x"))].map
        (fun kv => kv.1)) ∧
      updateConfig defaultConfiguration
          [( "top_k", CfgVal.n 3), ( "bogus", CfgVal.s ( "x"))] =
        .ok (applyKwargs defaultConfiguration
          [( "top_k", CfgVal.n 3), ( "bogus", CfgVal.s ( "x"))]) ∧
      getAttr (applyKwargs defaultConfiguration
          [( "top_k", CfgVal.n 3), ( "bogus", CfgVal.s ( "x"))]) ( "chunk_size") =
        getAttr defaultConfiguration ( "chunk_size") ∧
      getAttr (applyKwargs defaultConfiguration
          [( "top_k", CfgVal.n 3), ( "bogus", CfgVal.s ( "x"))]) ( "top_k") =
        some (CfgVal.n 3) ∧
      updateConfig defaultConfiguration [( "save", CfgVal.n 3)] =
        .error ( "TypeError: shadowed save attribute is not callable") := by
  have h := C9_update_config defaultConfiguration
    [( "top_k", CfgVal.n 3), ( "bogus", CfgVal.s ( "x"))] rfl
  have h2 := C9_update_config defaultConfiguration [( "save", CfgVal.n 3)] rfl
  have hns : ( "save") ∉ ([( "top_k", CfgVal.n 3), ( "bogus", CfgVal.s ( "x"))].map
      (fun kv => kv.1)) := by decide
  obtain ⟨hok, hframe, hset⟩ := h.2.1 hns
  exact ⟨rfl, hns, hok, hframe ( "chunk_size") (by decide) (by decide),
    hset (by decide) ( "top_k") (CfgVal.n 3) (by decide) (by decide),
    h2.2.2 (by decide)⟩

/-- Claim C9, counterexample.  `hasattr` matches every attribute of the
configuration instance, not only the configuration fields, so argument names
outside the seven tunables are not all ignored: `update_config(save=3)`
shadows the inherited save method with the integer 3 and the update raises a
`TypeError` instead of ignoring the argument, and `update_config(user=99)` is
applied and persisted, silently rewriting the configuration's owner. -/
theorem C9_counterexample :
    updateConfig defaultConfiguration [( "save", CfgVal.n 3)] =
        .error ( "TypeError: shadowed save attribute is not callable") ∧
      updateConfig defaultConfiguration [( "user", CfgVal.n 99)] =
        .ok (applyKwargs defaultConfiguration [( "user", CfgVal.n 99)]) ∧
      (applyKwargs defaultConfiguration [( "user", CfgVal.n 99)]).user =
        CfgVal.n 99 ∧
      defaultConfiguration.user ≠ CfgVal.n 99 := by
  refine ⟨rfl, rfl, rfl, ?_⟩
  decide

end LocalRAG

namespace LocalRAG

/-! ## Threshold filtering and query bookkeeping (claim C1) -/

theorem similaritySearch_length_le (sims : List ℚ) (topk : ℕ) :
    (similaritySearch sims topk).length ≤ topk := by
  unfold similaritySearch
  simp only [List.length_map, List.enum_length]
  exact (List.length_take_le _ _)

theorem searchSimilarChunks_length_le (rows : List ChunkRow) (sims : List ℚ)
    (topk : ℕ) : (searchSimilarChunks rows sims topk).length ≤ topk := by
  unfold searchSimilarChunks
  split
  · simp
  · rw [List.length_map]
    exact similaritySearch_length_le sims topk

/-- Claim C1.  `process_query` filters the retrieved candidates by
`similarity_score >= similarity_threshold`: a candidate strictly below the
threshold appears neither in the persisted source list nor in the chunk list
handed to the composer, a candidate at or above the threshold is formatted
into the persisted sources and handed to the composer, and the persisted
metadata records the pre-filter count (`chunks_found`, at most `top_k`), the
post-filter count (`chunks_used`) and the configuration snapshot. -/
theorem C1_threshold_filtering (cfg : RAGConfigV) (rows : List ChunkRow)
    (sims : List ℚ) (qt : String) :
    (∀ c ∈ searchSimilarChunks rows sims cfg.top_k,
        c.similarity_score < cfg.similarity_threshold →
          formatSource c ∉ (processQuery cfg rows sims qt).sources) ∧
    (∀ c ∈ searchSimilarChunks rows sims cfg.top_k,
        cfg.similarity_threshold ≤ c.similarity_score →
          formatSource c ∈ (processQuery cfg rows sims qt).sources) ∧
    (processQuery cfg rows sims qt).response_text =
      generateResponseP qt ((searchSimilarChunks rows sims cfg.top_k).filter
        (fun c => cfg.similarity_threshold ≤ c.similarity_score)) ∧
    (processQuery cfg rows sims qt).metadata.chunks_found =
      (searchSimilarChunks rows sims cfg.top_k).length ∧
    (searchSimilarChunks rows sims cfg.top_k).length ≤ cfg.top_k ∧
    (processQuery cfg rows sims qt).metadata.chunks_used =
      ((searchSimilarChunks rows sims cfg.top_k).filter
        (fun c => cfg.similarity_threshold ≤ c.similarity_score)).length ∧
    (processQuery cfg rows sims qt).metadata.config =
      ⟨cfg.top_k, cfg.similarity_threshold, cfg.model_name⟩ := by
  have hsrc : (processQuery cfg rows sims qt).sources =
      formatSources ((searchSimilarChunks rows sims cfg.top_k).filter
        (fun c => cfg.similarity_threshold ≤ c.similarity_score)) := rfl
  refine ⟨?_, ?_, rfl, rfl, searchSimilarChunks_length_le rows sims cfg.top_k, rfl, rfl⟩
  · intro c _ hlt hmem
    rw [hsrc] at hmem
    simp only [formatSources, List.mem_map, List.mem_filter] at hmem
    obtain ⟨c', ⟨_, hth⟩, heq⟩ := hmem
    have hscore : c'.similarity_score = c.similarity_score :=
      congrArg SourceEntry.similarity_score heq
    rw [hscore] at hth
    exact absurd (lt_of_le_of_lt (by exact_mod_cast of_decide_eq_true hth) hlt)
      (lt_irrefl _)
  · intro c hc hge
    rw [hsrc]
    simp only [formatSources, List.mem_map]
    refine ⟨c, ?_, rfl⟩
    rw [List.mem_filter]
    exact ⟨hc, by simpa using hge⟩

/-- Witness for C1: two candidates with scores 2 and 0 against threshold 1 —
the high-score candidate is kept in the sources, the low one excluded, and the
metadata records 2 found / 1 used. -/
theorem C1_threshold_filtering_witness :
    (⟨( "d"), ( "D"), ( "c0"), 0, ( "xx"), 2, 1⟩ : ScoredChunk) ∈
        searchSimilarChunks
          [⟨( "d"), ( "D"), ( "c0"), 0, ( "xx")⟩, ⟨( "d"), ( "D"), ( "c1"), 1, ( "yy")⟩]
          [2, 0] 2 ∧
      formatSource (⟨( "d"), ( "D"), ( "c0"), 0, ( "xx"), 2, 1⟩ : ScoredChunk) ∈
        (processQuery ⟨2, 1, ( "m")⟩
          [⟨( "d"), ( "D"), ( "c0"), 0, ( "xx")⟩, ⟨( "d"), ( "D"), ( "c1"), 1, ( "yy")⟩]
          [2, 0] ( "q")).sources ∧
      (⟨( "d"), ( "D"), ( "c1"), 1, ( "yy"), 0, 2⟩ : ScoredChunk) ∈
        searchSimilarChunks
          [⟨( "d"), ( "D"), ( "c0"), 0, ( "xx")⟩, ⟨( "d"), ( "D"), ( "c1"), 1, ( "yy")⟩]
          [2, 0] 2 ∧
      formatSource (⟨( "d"), ( "D"), ( "c1"), 1, ( "yy"), 0, 2⟩ : ScoredChunk) ∉
        (processQuery ⟨2, 1, ( "m")⟩
          [⟨( "d"), ( "D"), ( "c0"), 0, ( "xx")⟩, ⟨( "d"), ( "D"), ( "c1"), 1, ( "yy")⟩]
          [2, 0] ( "q")).sources ∧
      (processQuery ⟨2, 1, ( "m")⟩
          [⟨( "d"), ( "D"), ( "c0"), 0, ( "xx")⟩, ⟨( "d"), ( "D"), ( "c1"), 1, ( "yy")⟩]
          [2, 0] ( "q")).metadata.chunks_found = 2 ∧
      (processQuery ⟨2, 1, ( "m")⟩
          [⟨( "d"), ( "D"), ( "c0"), 0, ( "xx")⟩, ⟨( "d"), ( "D"), ( "c1"), 1, ( "yy")⟩]
          [2, 0] ( "q")).metadata.chunks_used = 1 := by
  have h := C1_threshold_filtering ⟨2, 1, ( "m")⟩
    [⟨( "d"), ( "D"), ( "c0"), 0, ( "xx")⟩, ⟨( "d"), ( "D"), ( "c1"), 1, ( "yy")⟩]
    [2, 0] ( "q")
  have hm0 : (⟨( "d"), ( "D"), ( "c0"), 0, ( "xx"), 2, 1⟩ : ScoredChunk) ∈
      searchSimilarChunks
        [⟨( "d"), ( "D"), ( "c0"), 0, ( "xx")⟩, ⟨( "d"), ( "D"), ( "c1"), 1, ( "yy")⟩]
        [2, 0] 2 := by decide
  have hm1 : (⟨( "d"), ( "D"), ( "c1"), 1, ( "yy"), 0, 2⟩ : ScoredChunk) ∈
      searchSimilarChunks
        [⟨( "d"), ( "D"), ( "c0"), 0, ( "xx")⟩, ⟨( "d"), ( "D"), ( "c1"), 1, ( "yy")⟩]
        [2, 0] 2 := by decide
  refine ⟨hm0, h.2.1 _ hm0 (by decide), hm1, h.1 _ hm1 (by decide), ?_, ?_⟩
  · rw [h.2.2.2.1]; decide
  · rw [h.2.2.2.2.2.1]; decide

end LocalRAG

namespace LocalRAG

/-! ## Empty composer input (claim C5) and not-found reporting (claim C8) -/

/-- Claim C5, amended.  When the chunk list handed to the composer is empty,
the Django pipeline's composer returns the fixed no-information answer, the
persisted sources are empty and a normal query record is still produced; the
engine path (`RAGEngine.generate_response`) instead short-circuits an empty
retrieval into the failure dict `{"success": False, "error": "No relevant
information found"}` — an error outcome, not a normal one. -/
theorem C5_empty_composer_input (q qt : String) (cfg : RAGConfigV)
    (rows : List ChunkRow) (sims : List ℚ) (query : List Char)
    (stored : Option (List Chunk × List ℚ))
    (hfil : (searchSimilarChunks rows sims cfg.top_k).filter
        (fun c => cfg.similarity_threshold ≤ c.similarity_score) = [])
    (hret : retrieveRelevantChunksE stored 5 = []) :
    generateResponseP q [] = noInfoResponse ∧
      formatSources [] = [] ∧
      (processQuery cfg rows sims qt).response_text = noInfoResponse ∧
      (processQuery cfg rows sims qt).sources = [] ∧
      generateResponseE true stored query = .err ( "No relevant information found") ∧
      (generateResponseE true stored query).isNormal = false := by
  refine ⟨rfl, rfl, ?_, ?_, ?_, ?_⟩
  · show generateResponseP qt _ = _
    rw [hfil]
    rfl
  · show formatSources _ = _
    rw [hfil]
    rfl
  · simp [generateResponseE, hret]
  · simp [generateResponseE, hret, EngineResult.isNormal]

/-- Witness for C5: no indexed rows on the pipeline side, no stored pickle on
the engine side. -/
theorem C5_empty_composer_input_witness :
    ((searchSimilarChunks [] [] 10).filter
        (fun c => (mkRat 1 2 : ℚ) ≤ c.similarity_score) = []) ∧
      (retrieveRelevantChunksE none 5 = []) ∧
      ((processQuery ⟨10, mkRat 1 2, ( "m")⟩ [] [] ( "q")).response_text =
          noInfoResponse ∧
        (processQuery ⟨10, mkRat 1 2, ( "m")⟩ [] [] ( "q")).sources = [] ∧
        generateResponseE true none (( "q").data) =
          .err ( "No relevant information found")) := by
  have h := C5_empty_composer_input ( "q") ( "q") ⟨10, mkRat 1 2, ( "m")⟩
    [] [] (( "q").data) none (by decide) (by decide)
  exact ⟨by decide, by decide, h.2.2.1, h.2.2.2.1, h.2.2.2.2.1⟩

/-- Claim C5, counterexample to "treated as a normal (non-error) outcome": in
`rag_engine.py`, a query whose retrieval is empty (here: no stored embedding
file) produces the failure dict, not a normal response. -/
theorem C5_counterexample :
    (generateResponseE true none (( "q").data)).isNormal = false ∧
      generateResponseE true none (( "q").data) =
        .err ( "No relevant information found") := by
  constructor <;> rfl

/-- Claim C8, amended.  Unknown sessions are reported to the caller as a
not-found outcome (`get_session_by_id` returns `None` exactly when no session
of the user has the id); the engine surfaces a failure dict when a document's
vectors were never indexed (missing embedding file); but the Django pipeline
treats a document with no indexed vectors as an ordinary empty retrieval: it
persists a normal record carrying the fixed no-information answer and an empty
source list instead of surfacing a not-found signal. -/
theorem C8_not_found_reporting {σ : Type} (sessions : List (String × σ))
    (sid : String) (cfg : RAGConfigV) (qt : String) (query : List Char) :
    (getSessionById sessions sid = none ↔ sid ∉ sessions.map (fun s => s.1)) ∧
      generateResponseE true none query = .err ( "No relevant information found") ∧
      (processQuery cfg [] [] qt).response_text = noInfoResponse ∧
      (processQuery cfg [] [] qt).sources = [] := by
  refine ⟨?_, rfl, rfl, rfl⟩
  unfold getSessionById
  rw [Option.map_eq_none']
  rw [List.find?_eq_none]
  simp only [List.mem_map, not_exists, not_and]
  constructor
  · intro h x hx hfst
    have := h x hx
    simp [hfst] at this
  · intro h x hx
    have := h x hx
    simpa using this

/-- Claim C8, counterexample: querying against a scope whose vectors were
never indexed (no `DocumentEmbedding` rows) does not surface a
not-found/failure signal in the pipeline — `process_query` persists a normal
record whose answer is exactly the "no relevant content" text. -/
theorem C8_counterexample :
    (processQuery ⟨10, mkRat 1 2, ( "m")⟩ [] [] ( "q")).response_text =
        noInfoResponse ∧
      (processQuery ⟨10, mkRat 1 2, ( "m")⟩ [] [] ( "q")).sources = [] ∧
      (processQuery ⟨10, mkRat 1 2, ( "m")⟩ [] [] ( "q")).metadata.chunks_found = 0 := by
  refine ⟨rfl, rfl, rfl⟩

end LocalRAG

namespace LocalRAG

/-! ## Arithmetic facts about `dotQ` and `sumSq` -/

theorem foldl_add_shift {α : Type} (f : α → ℚ) :
    ∀ (l : List α) (a : ℚ),
      l.foldl (fun acc p => acc + f p) a = a + l.foldl (fun acc p => acc + f p) 0 := by
  intro l
  induction l with
  | nil => intro a; simp
  | cons x l ih =>
    intro a
    simp only [List.foldl_cons]
    rw [ih (a + f x), ih (0 + f x)]
    ring

theorem dotQ_cons (x y : ℚ) (v w : List ℚ) :
    dotQ (x :: v) (y :: w) = x * y + dotQ v w := by
  unfold dotQ
  simp only [List.zip_cons_cons, List.foldl_cons]
  rw [foldl_add_shift (fun p : ℚ × ℚ => p.1 * p.2) (v.zip w) (0 + x * y)]
  ring

theorem sumSq_cons (x : ℚ) (v : List ℚ) : sumSq (x :: v) = x * x + sumSq v :=
  dotQ_cons x x v v

theorem sumSq_nonneg (v : List ℚ) : 0 ≤ sumSq v := by
  induction v with
  | nil => simp [sumSq, dotQ]
  | cons x v ih =>
    rw [sumSq_cons]
    have := mul_self_nonneg x
    linarith

theorem sumSq_pos_of_mem {v : List ℚ} {x : ℚ} (hx : x ∈ v) (hx0 : x ≠ 0) :
    0 < sumSq v := by
  induction v with
  | nil => exact absurd hx (List.not_mem_nil x)
  | cons y v ih =>
    rw [sumSq_cons]
    rcases List.mem_cons.mp hx with rfl | hx'
    · have h1 : 0 < x * x := mul_self_pos.mpr hx0
      have h2 := sumSq_nonneg v
      linarith
    · have h1 : 0 ≤ y * y := mul_self_nonneg y
      have h2 := ih hx'
      linarith

theorem sumSq_replicate_zero : ∀ n : ℕ, sumSq (List.replicate n 0) = 0 := by
  intro n
  induction n with
  | zero => simp [sumSq, dotQ]
  | succ n ih =>
    rw [List.replicate_succ, sumSq_cons, ih]
    ring

/-! ## Totality of the similarity computations (claim C4) -/

/-- The zero-norm guard of `_simple_cosine_similarity`: shared by several
claims below. -/
theorem simpleCosineSim_eq_zero (v1 v2 : List ℚ)
    (h : sumSq (v1.take (min v1.length v2.length)) = 0 ∨
      sumSq (v2.take (min v1.length v2.length)) = 0) :
    simpleCosineSim v1 v2 = 0 := by
  simp only [simpleCosineSim]
  rw [if_pos h]

/-- The value of `_simple_cosine_similarity` of a non-degenerate vector with
itself is exactly 1. -/
theorem simpleCosineSim_self (v : List ℚ) (h : 0 < sumSq v) :
    simpleCosineSim v v = 1 := by
  simp only [simpleCosineSim, min_self, List.take_length]
  rw [if_neg ?_]
  · show ((dotQ v v : ℚ) : ℝ) / (Real.sqrt (sumSq v) * Real.sqrt (sumSq v)) = 1
    rw [Real.mul_self_sqrt (by exact_mod_cast le_of_lt h)]
    have hd : ((dotQ v v : ℚ) : ℝ) = ((sumSq v : ℚ) : ℝ) := rfl
    rw [hd, div_self (by exact_mod_cast ne_of_gt h)]
  · rw [not_or]
    constructor <;> exact ne_of_gt h

/-- Claim C4, amended.  The fallback similarity is total: it truncates both
vectors to the shorter length, returns exactly 0 when either truncated
vector's squared norm is zero, and otherwise divides by a provably nonzero
norm product.  The numpy path has no such guard: `similarity_search`'s cosine
value is undefined (`none`, modelling NaN/∞ or a shape error) exactly when the
dimensions mismatch or either vector has zero norm. -/
theorem C4_similarity_totality (v1 v2 : List ℚ) :
    ((sumSq (v1.take (min v1.length v2.length)) = 0 ∨
        sumSq (v2.take (min v1.length v2.length)) = 0) →
      simpleCosineSim v1 v2 = 0) ∧
    simpleCosineSim v1 v2 =
      simpleCosineSim (v1.take (min v1.length v2.length))
        (v2.take (min v1.length v2.length)) ∧
    ((sumSq (v1.take (min v1.length v2.length)) ≠ 0 ∧
        sumSq (v2.take (min v1.length v2.length)) ≠ 0) →
      Real.sqrt (sumSq (v1.take (min v1.length v2.length))) *
          Real.sqrt (sumSq (v2.take (min v1.length v2.length))) ≠ 0 ∧
      simpleCosineSim v1 v2 *
          (Real.sqrt (sumSq (v1.take (min v1.length v2.length))) *
            Real.sqrt (sumSq (v2.take (min v1.length v2.length)))) =
        ((dotQ (v1.take (min v1.length v2.length))
          (v2.take (min v1.length v2.length)) : ℚ) : ℝ)) ∧
    (npCosineSim v1 v2 = none ↔
      v1.length ≠ v2.length ∨ sumSq v1 = 0 ∨ sumSq v2 = 0) := by
  have hlen1 : (v1.take (min v1.length v2.length)).length = min v1.length v2.length := by
    simp [List.length_take]
  have hlen2 : (v2.take (min v1.length v2.length)).length = min v1.length v2.length := by
    simp [List.length_take]
  refine ⟨simpleCosineSim_eq_zero v1 v2, ?_, ?_, ?_⟩
  · simp only [simpleCosineSim, hlen1, hlen2, min_self, List.take_take]
  · intro ⟨h1, h2⟩
    have hs1 : 0 < sumSq (v1.take (min v1.length v2.length)) :=
      lt_of_le_of_ne (sumSq_nonneg _) (Ne.symm h1)
    have hs2 : 0 < sumSq (v2.take (min v1.length v2.length)) :=
      lt_of_le_of_ne (sumSq_nonneg _) (Ne.symm h2)
    have hq1 : (0 : ℝ) < Real.sqrt (sumSq (v1.take (min v1.length v2.length))) :=
      Real.sqrt_pos.mpr (by exact_mod_cast hs1)
    have hq2 : (0 : ℝ) < Real.sqrt (sumSq (v2.take (min v1.length v2.length))) :=
      Real.sqrt_pos.mpr (by exact_mod_cast hs2)
    have hne : Real.sqrt (sumSq (v1.take (min v1.length v2.length))) *
        Real.sqrt (sumSq (v2.take (min v1.length v2.length))) ≠ 0 :=
      ne_of_gt (mul_pos hq1 hq2)
    refine ⟨hne, ?_⟩
    simp only [simpleCosineSim]
    rw [if_neg (by rw [not_or]; exact ⟨h1, h2⟩)]
    exact div_mul_cancel₀ _ hne
  · simp only [npCosineSim]
    split_ifs with h1 h2
    · simp [h1]
    · simp [h1, h2]
    · simp only [reduceCtorEq, false_iff, not_or]
      exact ⟨fun h => h1 h, fun h => h2 (Or.inl h), fun h => h2 (Or.inr h)⟩

/-- Witness for C4: a zero vector yields similarity 0 through the guard; a
self-similarity instance exercises the non-degenerate branch; the unguarded
numpy path is undefined on a zero vector. -/
theorem C4_similarity_totality_witness :
    simpleCosineSim [0, 0] [3, 4] = 0 ∧
      (Real.sqrt (sumSq ([3, 4] : List ℚ)) * Real.sqrt (sumSq ([3, 4] : List ℚ)) ≠ 0 ∧
        simpleCosineSim [3, 4] [3, 4] *
            (Real.sqrt (sumSq ([3, 4] : List ℚ)) * Real.sqrt (sumSq ([3, 4] : List ℚ))) =
          ((dotQ [3, 4] [3, 4] : ℚ) : ℝ)) ∧
      npCosineSim [1, 1] [0, 0] = none := by
  have hz : sumSq ([0, 0] : List ℚ) = 0 := by
    norm_num [sumSq, dotQ]
  have hnz : sumSq ([3, 4] : List ℚ) = 25 := by
    norm_num [sumSq, dotQ]
  have hz2 : sumSq ([0, 0] : List ℚ) = 0 := hz
  refine ⟨(C4_similarity_totality [0, 0] [3, 4]).1 (Or.inl (by simpa using hz)), ?_, ?_⟩
  · have h := (C4_similarity_totality [3, 4] [3, 4]).2.2.1
    simpa using h (by simp [hnz])
  · exact ((C4_similarity_totality [1, 1] [0, 0]).2.2.2).mpr (Or.inr (Or.inr hz2))

/-- Claim C4, counterexample to "never yields NaN for any pair of input
vectors": the numpy similarity of the vectors `[1]` and `[0]` divides by the
zero norm of `[0]` — IEEE NaN, modelled as `none`. -/
theorem C4_counterexample : npCosineSim [1] [0] = none := by
  have h0 : sumSq ([0] : List ℚ) = 0 := by norm_num [sumSq, dotQ]
  simp [npCosineSim, h0]

end LocalRAG

namespace LocalRAG

/-! ## The fallback embedding (claim C6) -/

theorem simpleEmbeddingRaw_eq_natCast (t : List Char) :
    simpleEmbeddingRaw t = (simpleEmbeddingRawNat t).map (fun n : ℕ => (n : ℚ)) := by
  simp only [simpleEmbeddingRaw, simpleEmbeddingRawNat, List.map_append, List.map_map]
  rfl

theorem simpleEmbeddingRaw_sum_nonneg (t : List Char) :
    0 ≤ (simpleEmbeddingRaw t).sum := by
  refine List.sum_nonneg ?_
  intro x hx
  unfold simpleEmbeddingRaw at hx
  rcases List.mem_append.mp hx with hx | hx <;>
    · obtain ⟨w, _, rfl⟩ := List.mem_map.mp hx
      exact Nat.cast_nonneg _

theorem simpleEmbedding_total_pos (t : List Char) :
    0 < (simpleEmbeddingRaw t).sum + epsTiny := by
  have h1 := simpleEmbeddingRaw_sum_nonneg t
  have h2 : (0 : ℚ) < epsTiny := by norm_num [epsTiny]
  linarith

theorem simpleEmbeddingRaw_exists_pos (t : List Char) (h : embWords t ≠ []) :
    ∃ x ∈ simpleEmbeddingRaw t, 0 < x := by
  have hded : (embWords t).dedup ≠ [] := by
    intro hd
    exact h ((List.dedup_eq_nil _).mp hd)
  have htake : (embWords t).dedup.take 20 ≠ [] := by
    intro ht
    rcases List.take_eq_nil_iff.mp ht with h20 | hnil
    · exact absurd h20 (by norm_num)
    · exact hded hnil
  obtain ⟨w, hw⟩ := List.exists_mem_of_ne_nil _ htake
  have hwords : w ∈ embWords t :=
    List.mem_dedup.mp ((List.take_sublist _ _).subset hw)
  have hcount : 0 < (embWords t).count w := List.count_pos_iff.mpr hwords
  by_cases hv : w ∈ vocabL
  · refine ⟨((embWords t).count w : ℚ), ?_, by exact_mod_cast hcount⟩
    unfold simpleEmbeddingRaw
    refine List.mem_append_left _ ?_
    exact List.mem_map.mpr ⟨w, hv, rfl⟩
  · refine ⟨((embWords t).count w : ℚ), ?_, by exact_mod_cast hcount⟩
    unfold simpleEmbeddingRaw
    refine List.mem_append_right _ ?_
    refine List.mem_map.mpr ⟨w, ?_, rfl⟩
    rw [List.mem_filter]
    exact ⟨hw, by simpa using hv⟩

theorem sum_map_div (l : List ℚ) (c : ℚ) :
    (l.map (fun x => x / c)).sum = l.sum / c := by
  induction l with
  | nil => simp
  | cons x l ih => simp [ih, add_div]

theorem sumSq_simpleEmbedding_pos (t : List Char) (h : embWords t ≠ []) :
    0 < sumSq (simpleEmbedding t) := by
  obtain ⟨x, hx, hx0⟩ := simpleEmbeddingRaw_exists_pos t h
  have htot := simpleEmbedding_total_pos t
  refine sumSq_pos_of_mem (v := simpleEmbedding t)
    (x := x / ((simpleEmbeddingRaw t).sum + epsTiny)) ?_ ?_
  · exact List.mem_map.mpr ⟨x, hx, rfl⟩
  · exact ne_of_gt (div_pos hx0 htot)

/-- Claim C6, amended.  The fallback embedding is the term-frequency count
vector (fixed vocabulary followed by the counts of up to 20 distinct
non-vocabulary terms of the text) divided by the total count plus `1e-10` —
approximately, but not exactly, L1-normalized: the embedded vector's L1 mass
is `S/(S + 1e-10)` for raw mass `S`.  Embedding is deterministic, so texts
with identical content receive identical vectors, and whenever the text
contains at least one word the mutual cosine similarity of those vectors is
exactly 1. -/
theorem C6_fallback_embedding (t t' : List Char) (heq : t = t')
    (hw : embWords t ≠ []) :
    simpleEmbedding t = simpleEmbedding t' ∧
      simpleEmbedding t =
        (simpleEmbeddingRaw t).map
          (fun x => x / ((simpleEmbeddingRaw t).sum + epsTiny)) ∧
      (simpleEmbedding t).sum =
        (simpleEmbeddingRaw t).sum / ((simpleEmbeddingRaw t).sum + epsTiny) ∧
      simpleCosineSim (simpleEmbedding t) (simpleEmbedding t') = 1 := by
  subst heq
  refine ⟨rfl, rfl, ?_, ?_⟩
  · exact sum_map_div _ _
  · exact simpleCosineSim_self _ (sumSq_simpleEmbedding_pos t hw)

/-- Witness for C6 on the one-word text `"the"`. -/
theorem C6_fallback_embedding_witness :
    embWords (( "the").data) ≠ [] ∧
      (simpleEmbedding (( "the").data)).sum =
        (simpleEmbeddingRaw (( "the").data)).sum /
          ((simpleEmbeddingRaw (( "the").data)).sum + epsTiny) ∧
      simpleCosineSim (simpleEmbedding (( "the").data))
        (simpleEmbedding (( "the").data)) = 1 := by
  have h := C6_fallback_embedding (( "the").data) (( "the").data) rfl (by decide)
  exact ⟨by decide, h.2.2.1, h.2.2.2⟩

/-- Claim C6, counterexample.  (i) The embedding is *not* the exactly
L1-normalized count vector: for the text `"the"` the stored entry is
`1/(1 + 1e-10)` where exact normalization gives `1`.  (ii) Two empty texts
have identical (zero) embeddings but mutual similarity 0, not 1. -/
theorem C6_counterexample :
    simpleEmbedding (( "the").data) ≠
        l1Normalize (simpleEmbeddingRaw (( "the").data)) ∧
      simpleCosineSim (simpleEmbedding []) (simpleEmbedding []) ≠ 1 := by
  have hnat : simpleEmbeddingRawNat (( "the").data) = 1 :: List.replicate 44 0 := by
    decide
  have hraw : simpleEmbeddingRaw (( "the").data) = (1 : ℚ) :: List.replicate 44 0 := by
    rw [simpleEmbeddingRaw_eq_natCast, hnat]
    simp [List.map_replicate]
  have hsum : (simpleEmbeddingRaw (( "the").data)).sum = 1 := by
    rw [hraw]
    simp [List.sum_replicate]
  constructor
  · intro hEq
    have h0 := congrArg (fun l => l.head?) hEq
    simp only [simpleEmbedding, l1Normalize, hraw, hsum] at h0
    simp only [List.map_cons, List.head?_cons, Option.some.injEq] at h0
    simp only [List.sum_cons, List.sum_replicate, smul_zero, add_zero] at h0
    norm_num [epsTiny] at h0
  · have hnat0 : simpleEmbeddingRawNat [] = List.replicate 45 0 := by decide
    have hz : simpleEmbedding [] = List.replicate 45 0 := by
      unfold simpleEmbedding
      rw [simpleEmbeddingRaw_eq_natCast, hnat0]
      simp [List.map_replicate]
    rw [hz]
    rw [simpleCosineSim_eq_zero _ _ ?_]
    · norm_num
    · left
      simp only [min_self, List.take_length]
      exact sumSq_replicate_zero 45
end LocalRAG
